import Mathlib

/-!
# vault-cli: batched transit encryption of files

A shallow embedding of `vault.go` and `commands.go`.

* Go strings are immutable byte sequences; they are embedded as `List (Fin 256)`.
* Every call that leaves the process (file system, Vault HTTP API, environment,
  standard output) is recorded in an effect trace, and its result is supplied by
  an oracle record `Sys`.  A function of the program returns the list of effects
  it performed together with its Go result.  The answer of Vault to a request
  is a function of the effects of the run so far and of the request.
* The calls into `encoding/json` are parameters of `Sys` as well; the example
  environments use a model of `json.Unmarshal` for the two response structs.
* The `for` loop of `EncryptFile` / `DecryptFile` is embedded with explicit fuel:
  the result `none` means that the loop is still running when the fuel is used up.
-/

namespace VaultCli

/-! ## Go strings -/

/-- One byte of a Go string. -/
abbrev Byte := Fin 256

/-- A Go `string`: a sequence of bytes. -/
abbrev GoString := List Byte

/-- The bytes of an ASCII literal (every literal of the program is ASCII). -/
def str (s : String) : GoString := s.toList.map (fun c => Fin.ofNat c.toNat)

/-- The newline byte, the separator `"\n"` used by the program. -/
def newline : Byte := 10

/-- The literal `".encrypted"`. -/
def dotEncrypted : GoString := [46, 101, 110, 99, 114, 121, 112, 116, 101, 100]

/-- The literal `".decrypted"`. -/
def dotDecrypted : GoString := [46, 100, 101, 99, 114, 121, 112, 116, 101, 100]

/-- Go `strings.HasSuffix`:
`len(s) >= len(suffix) && s[len(s)-len(suffix):] == suffix`. -/
def HasSuffix (s suffix : GoString) : Bool :=
  decide (s.length ≥ suffix.length) && (s.drop (s.length - suffix.length) == suffix)

/-- Go `strings.TrimSuffix`: `s[:len(s)-len(suffix)]` when `HasSuffix`, else `s`. -/
def TrimSuffix (s suffix : GoString) : GoString :=
  if HasSuffix s suffix then s.take (s.length - suffix.length) else s

/-- Go `strings.Split(s, sep)` for a separator of one byte: the maximal pieces of
`s` between occurrences of `sep`; `Split "" sep` is the one-element list `[""]`. -/
def Split : GoString → Byte → List GoString
  | [], _ => [[]]
  | c :: cs, sep =>
    if c = sep then [] :: Split cs sep
    else
      match Split cs sep with
      | [] => [[c]]
      | piece :: rest => (c :: piece) :: rest

/-- Go `strings.Join(elems, sep)` for a separator of one byte. -/
def Join : List GoString → Byte → GoString
  | [], _ => []
  | [a], _ => a
  | a :: b :: rest, sep => a ++ sep :: Join (b :: rest) sep

/-! ## `encoding/base64`, standard encoding with padding -/

/-- The alphabet of `base64.StdEncoding`:
`A`-`Z`, `a`-`z`, `0`-`9`, `+`, `/`. -/
def encodeStd : List Byte :=
  [65, 66, 67, 68, 69, 70, 71, 72, 73, 74, 75, 76, 77, 78, 79, 80, 81, 82, 83, 84, 85, 86, 87,
   88, 89, 90,
   97, 98, 99, 100, 101, 102, 103, 104, 105, 106, 107, 108, 109, 110, 111, 112, 113, 114, 115,
   116, 117, 118, 119, 120, 121, 122,
   48, 49, 50, 51, 52, 53, 54, 55, 56, 57, 43, 47]

/-- The padding character `=`. -/
def padChar : Byte := 61

/-- The character that encodes the six-bit value `n`. -/
def encodeSextet (n : Nat) : Byte := encodeStd.getD (n % 64) 0

/-- The six-bit value a character stands for, if it belongs to the alphabet. -/
def decodeSextet (c : Byte) : Option Nat :=
  let i := encodeStd.indexOf c
  if i < 64 then some i else none

/-- Go `base64.StdEncoding.EncodeToString`: three bytes become four characters;
a final group of one or two bytes is padded with `=`. -/
def EncodeToString : GoString → GoString
  | [] => []
  | [a] =>
    [encodeSextet (a.val / 4), encodeSextet (a.val % 4 * 16), padChar, padChar]
  | [a, b] =>
    [encodeSextet (a.val / 4), encodeSextet (a.val % 4 * 16 + b.val / 16),
     encodeSextet (b.val % 16 * 4), padChar]
  | a :: b :: c :: rest =>
    encodeSextet (a.val / 4) :: encodeSextet (a.val % 4 * 16 + b.val / 16) ::
      encodeSextet (b.val % 16 * 4 + c.val / 64) :: encodeSextet (c.val % 64) ::
      EncodeToString rest

/-- The quanta of a base64 text from which `\r` and `\n` have been removed: four
characters give three bytes; padding is accepted only in the last quantum. -/
def decodeQuanta : GoString → Option GoString
  | [] => some []
  | a :: b :: c :: d :: rest =>
    match decodeSextet a, decodeSextet b with
    | some x, some y =>
      if c = padChar then
        if d = padChar ∧ rest = [] then
          some [Fin.ofNat ((x * 262144 + y * 4096) / 65536)]
        else none
      else
        match decodeSextet c with
        | none => none
        | some z =>
          if d = padChar then
            if rest = [] then
              some [Fin.ofNat ((x * 262144 + y * 4096 + z * 64) / 65536),
                    Fin.ofNat ((x * 262144 + y * 4096 + z * 64) / 256)]
            else none
          else
            match decodeSextet d with
            | none => none
            | some w =>
              match decodeQuanta rest with
              | none => none
              | some tail =>
                some (Fin.ofNat ((x * 262144 + y * 4096 + z * 64 + w) / 65536) ::
                  Fin.ofNat ((x * 262144 + y * 4096 + z * 64 + w) / 256) ::
                  Fin.ofNat (x * 262144 + y * 4096 + z * 64 + w) :: tail)
    | _, _ => none
  | _ => none

/-- Go `base64.StdEncoding.DecodeString`: `\r` and `\n` are ignored, everything
else has to be a padded base64 text; `none` stands for a `CorruptInputError`. -/
def DecodeString (s : GoString) : Option GoString :=
  decodeQuanta (s.filter (fun c => c != 10 && c != 13))

/-! ## Data model of `vault.go` -/

/-- A JSON value, as found in the `Data` map of a Vault `api.Secret`. -/
inductive JSON where
  | null
  | bool (b : Bool)
  | number (n : Int)
  | string (s : GoString)
  | array (elems : List JSON)
  | object (fields : List (GoString × JSON))

/-- Source comment: `VaultConfig holds the configuration for Vault client`. -/
structure VaultConfig where
  Addr : GoString
  Token : GoString
  TransitPath : GoString
  TransitKey : GoString
  MaxItems : Int
  deriving DecidableEq

/-- Source comment: `BulkEncryptRequest represents a bulk encryption request`. -/
structure BulkEncryptRequest where
  Plaintext : GoString
  deriving DecidableEq

/-- Source comment: `BulkDecryptRequest represents a bulk decryption request`. -/
structure BulkDecryptRequest where
  Ciphertext : GoString
  deriving DecidableEq

/-- One element of `BulkEncryptResponse.Data.BatchResults`. -/
structure BulkEncryptResult where
  Ciphertext : GoString
  deriving DecidableEq

/-- The anonymous struct `BulkEncryptResponse.Data`, JSON key `batch_results`. -/
structure BulkEncryptData where
  BatchResults : List BulkEncryptResult
  deriving DecidableEq

/-- Source comment: `BulkEncryptResponse represents a bulk encryption response`, JSON key `data`. -/
structure BulkEncryptResponse where
  Data : BulkEncryptData
  deriving DecidableEq

/-- One element of `BulkDecryptResponse.Data.BatchResults`. -/
structure BulkDecryptResult where
  Plaintext : GoString
  deriving DecidableEq

/-- The anonymous struct `BulkDecryptResponse.Data`, JSON key `batch_results`. -/
structure BulkDecryptData where
  BatchResults : List BulkDecryptResult
  deriving DecidableEq

/-- Source comment: `BulkDecryptResponse represents a bulk decryption response`, JSON key `data`. -/
structure BulkDecryptResponse where
  Data : BulkDecryptData
  deriving DecidableEq

/-- The `map[string]interface{}` bodies the program passes to `Logical().Write`. -/
inductive RequestData where
  /-- The map with the single key `plaintext`, of `EncryptString`. -/
  | plaintext (encodedText : GoString)
  /-- The map with the single key `ciphertext`, of `DecryptString`. -/
  | ciphertext (ciphertext : GoString)
  /-- The map with the single key `batch_input`, of `encryptBatch`. -/
  | encryptBatchInput (batchRequests : List BulkEncryptRequest)
  /-- The map with the single key `batch_input`, of `decryptBatch`. -/
  | decryptBatchInput (batchRequests : List BulkDecryptRequest)
  deriving DecidableEq

/-- The Go `error` values of the program: one constructor for each `fmt.Errorf`
of the source, and `external` for an error handed back by a library call. -/
inductive Error where
  /-- An error returned by `os`, the Vault client or `encoding/json` -/
  | external (msg : GoString)
  /-- Library error `base64.CorruptInputError` -/
  | corruptInput
  /-- Message `failed to create vault client: %w` -/
  | createVaultClient (cause : Error)
  /-- Message `failed to encrypt string: %w` -/
  | encryptString (cause : Error)
  /-- Message `invalid response format: ciphertext not found` -/
  | ciphertextNotFound
  /-- Message `failed to decrypt string: %w` -/
  | decryptString (cause : Error)
  /-- Message `invalid response format: plaintext not found` -/
  | plaintextNotFound
  /-- Message `failed to decode plaintext: %w` -/
  | decodePlaintext (cause : Error)
  /-- Message `failed to read input file: %w` -/
  | readInputFile (cause : Error)
  /-- Message `failed to encrypt batch %d-%d: %w` -/
  | encryptBatchRange (i : Int) (stop : Int) (cause : Error)
  /-- Message `failed to decrypt batch %d-%d: %w` -/
  | decryptBatchRange (i : Int) (stop : Int) (cause : Error)
  /-- Message `failed to create output directory: %w` -/
  | createOutputDirectory (cause : Error)
  /-- Message `failed to write encrypted file: %w` -/
  | writeEncryptedFile (cause : Error)
  /-- Message `failed to write decrypted file: %w` -/
  | writeDecryptedFile (cause : Error)
  /-- Message `bulk encryption failed: %w` -/
  | bulkEncryptionFailed (cause : Error)
  /-- Message `bulk decryption failed: %w` -/
  | bulkDecryptionFailed (cause : Error)
  /-- Message `failed to marshal response: %w` -/
  | marshalResponse (cause : Error)
  /-- Message `failed to parse response: %w` -/
  | parseResponse (cause : Error)
  /-- Message `vault address is required (use --vault-addr or VAULT_ADDR env var)` -/
  | vaultAddrRequired
  /-- Message `vault token is required (use --vault-token or VAULT_TOKEN env var)` -/
  | vaultTokenRequired
  /-- Message `cannot specify both --file and --text, choose one` -/
  | bothFileAndText
  /-- Message `must specify either --file or --text` -/
  | neitherFileNorText
  /-- Message `no input specified` -/
  | noInputSpecified
  deriving DecidableEq

/-- How a Go function call ends: with a value and a nil error, with a non-nil
error, or in a run-time panic. -/
inductive Outcome (α : Type) where
  | ok (value : α)
  | error (err : Error)
  | panic
  deriving DecidableEq

/-- The calls of the program that reach outside the process. -/
inductive Effect where
  /-- Call `viper.GetString(key)` -/
  | viperGetString (key : GoString)
  /-- Call `vault.NewClient` with `Address = addr` -/
  | newClient (addr : GoString)
  /-- Call `client.SetToken(token)` -/
  | setToken (token : GoString)
  /-- Call `client.Logical().Write(path, data)`: one HTTP request to Vault -/
  | logicalWrite (path : GoString) (data : RequestData)
  /-- Call `os.ReadFile(path)` -/
  | readFile (path : GoString)
  /-- Call `os.MkdirAll(path, 0755)` -/
  | mkdirAll (path : GoString)
  /-- Call `os.WriteFile(path, content, 0644)` -/
  | writeFile (path : GoString) (content : GoString)
  /-- Call `fmt.Printf` with the formatted text -/
  | printf (text : GoString)
  deriving DecidableEq

/-- How `json.Marshal(secret.Data)` followed by
`json.Unmarshal(responseBytes, &response)` ends: with the decoded struct, with
the error of `Marshal`, or with the error of `Unmarshal`. -/
inductive JsonResult (α : Type) where
  | ok (value : α)
  | marshalError (msg : GoString)
  | unmarshalError (msg : GoString)
  deriving DecidableEq

/-- The world and the libraries outside the repository.

* `logicalWrite history path data` is the answer of `client.Logical().Write(path,
  data)` when `history` are the effects of the run so far: the error of the
  call, or the returned `*api.Secret`, `none` for a nil secret and else its
  `Data` map.  Two equal requests of one run may be answered differently.
* `decodeEncryptResponse` and `decodeDecryptResponse` are `json.Marshal` of the
  `Data` map followed by `json.Unmarshal` into `BulkEncryptResponse` or
  `BulkDecryptResponse`.
* The other calls are made at most once with given arguments in a run, their
  answers are functions of the arguments. -/
structure Sys where
  viperGetString : GoString → GoString
  vaultNewClient : GoString → Option GoString
  logicalWrite :
    List Effect → GoString → RequestData → Except GoString (Option (List (GoString × JSON)))
  decodeEncryptResponse : List (GoString × JSON) → JsonResult BulkEncryptResponse
  decodeDecryptResponse : List (GoString × JSON) → JsonResult BulkDecryptResponse
  osReadFile : GoString → Except GoString GoString
  osMkdirAll : GoString → Option GoString
  osWriteFile : GoString → GoString → Option GoString
  filepathBase : GoString → GoString
  filepathJoin : GoString → GoString → GoString

/-- Whether an effect creates a directory or writes a file. -/
def Effect.isFileWrite : Effect → Bool
  | .mkdirAll _ => true
  | .writeFile _ _ => true
  | _ => false

/-- Whether an effect is a request to Vault. -/
def Effect.isNetworkCall : Effect → Bool
  | .logicalWrite _ _ => true
  | _ => false

/-! ## A model of `encoding/json` for the response structs

`json.Marshal` writes the entries of a map in increasing key order, and the
lists of entries below are taken in that order.  `json.Unmarshal` decodes every
member of an object whose key matches the JSON key of a struct field, exactly
or ignoring case, into that field, one member after the other: `null` leaves a
string or a struct as it is and empties a slice, a member decoded into a struct
or into an element a slice already has is merged with it, and a value of the
wrong JSON kind is recorded as an `UnmarshalTypeError` while decoding goes on.
Elements a slice gains start from the zero value. -/

/-- Case folding of a key: ASCII letters are put in upper case, and the two
letters outside ASCII that fold to an ASCII letter, U+017F and U+212A, are
replaced by `S` and `K`.  `fuel` bounds the number of steps. -/
def foldNameAux : Nat → GoString → GoString
  | 0, _ => []
  | _ + 1, [] => []
  | fuel + 1, c :: rest =>
    if c = 197 ∧ rest.take 1 = [191] then 83 :: foldNameAux fuel (rest.drop 1)
    else if c = 226 ∧ rest.take 2 = [132, 170] then 75 :: foldNameAux fuel (rest.drop 2)
    else (if 97 ≤ c.val ∧ c.val ≤ 122 then Fin.ofNat (c.val - 32) else c) ::
      foldNameAux fuel rest

/-- Go `foldName` of `encoding/json`, for comparison with an ASCII field name. -/
def foldName (key : GoString) : GoString := foldNameAux key.length key

/-- Decoding a JSON value into a `string` field that holds `cur`; the flag
tells whether a type error was recorded. -/
def decodeString (cur : GoString) : JSON → GoString × Bool
  | .null => (cur, false)
  | .string s => (s, false)
  | _ => (cur, true)

/-- Decoding the members of an object into a struct whose only field has the
JSON key `name`, holds `cur` and is decoded by `decodeField`. -/
def decodeMembers {σ : Type} (name : GoString) (decodeField : σ → JSON → σ × Bool) :
    σ → List (GoString × JSON) → σ × Bool
  | cur, [] => (cur, false)
  | cur, (key, value) :: rest =>
    if foldName key = foldName name then
      let step := decodeField cur value
      let later := decodeMembers name decodeField step.1 rest
      (later.1, step.2 || later.2)
    else decodeMembers name decodeField cur rest

/-- Decoding a JSON value into a struct with a single `string` field of JSON
key `key`. -/
def decodeItem (key : GoString) (cur : GoString) : JSON → GoString × Bool
  | .null => (cur, false)
  | .object members => decodeMembers key decodeString cur members
  | _ => (cur, true)

/-- Decoding the elements of a JSON array into a slice of such structs that
holds `cur`. -/
def decodeItems (key : GoString) : List GoString → List JSON → List GoString × Bool
  | _, [] => ([], false)
  | cur, value :: rest =>
    let step := decodeItem key (cur.headD []) value
    let later := decodeItems key cur.tail rest
    (step.1 :: later.1, step.2 || later.2)

/-- Decoding a JSON value into the field `BatchResults`. -/
def decodeBatchResults (key : GoString) (cur : List GoString) : JSON → List GoString × Bool
  | .null => ([], false)
  | .array elems => decodeItems key cur elems
  | _ => (cur, true)

/-- Decoding a JSON value into the field `Data`, whose only field
`BatchResults` has the JSON key `batch_results`. -/
def decodeData (key : GoString) (cur : List GoString) : JSON → List GoString × Bool
  | .null => (cur, false)
  | .object members => decodeMembers (str "batch_results") (decodeBatchResults key) cur members
  | _ => (cur, true)

/-- Decoding the `Data` map of a secret into a response struct, whose only
field `Data` has the JSON key `data`; `key` is the JSON key of the result
items. -/
def unmarshalResponse (key : GoString) (secretData : List (GoString × JSON)) :
    JsonResult (List GoString) :=
  let decoded := decodeMembers (str "data") (decodeData key) [] secretData
  if decoded.2 then .unmarshalError (str "json: cannot unmarshal") else .ok decoded.1

/-- Model of `json.Unmarshal(responseBytes, &response)` for
`response : BulkEncryptResponse`. -/
def unmarshalBulkEncryptResponse (secretData : List (GoString × JSON)) :
    JsonResult BulkEncryptResponse :=
  match unmarshalResponse (str "ciphertext") secretData with
  | .ok items => .ok ⟨⟨items.map BulkEncryptResult.mk⟩⟩
  | .marshalError msg => .marshalError msg
  | .unmarshalError msg => .unmarshalError msg

/-- Model of `json.Unmarshal(responseBytes, &response)` for
`response : BulkDecryptResponse`. -/
def unmarshalBulkDecryptResponse (secretData : List (GoString × JSON)) :
    JsonResult BulkDecryptResponse :=
  match unmarshalResponse (str "plaintext") secretData with
  | .ok items => .ok ⟨⟨items.map BulkDecryptResult.mk⟩⟩
  | .marshalError msg => .marshalError msg
  | .unmarshalError msg => .unmarshalError msg

/-- The Go map index `secret.Data[key]`: the value stored under exactly `key`. -/
def lookupField (key : GoString) : List (GoString × JSON) → Option JSON
  | [] => none
  | (k, v) :: rest => if k = key then some v else lookupField key rest

/-! ## `vault.go`: batch calls -/

/-- The request path `fmt.Sprintf("%s/encrypt/%s", TransitPath, TransitKey)`. -/
def encryptPath (config : VaultConfig) : GoString :=
  config.TransitPath ++ str "/encrypt/" ++ config.TransitKey

/-- The request path `fmt.Sprintf("%s/decrypt/%s", TransitPath, TransitKey)`. -/
def decryptPath (config : VaultConfig) : GoString :=
  config.TransitPath ++ str "/decrypt/" ++ config.TransitKey

/-- The request entries `encryptBatch` builds: empty lines are skipped, every
other line is base64-encoded. -/
def encryptBatchRequests (lines : List GoString) : List BulkEncryptRequest :=
  (lines.filter (fun line => line != [])).map (fun line => ⟨EncodeToString line⟩)

/-- The request entries `decryptBatch` builds: empty lines are skipped, every
other line is passed on unchanged. -/
def decryptBatchRequests (lines : List GoString) : List BulkDecryptRequest :=
  (lines.filter (fun line => line != [])).map (fun line => ⟨line⟩)

/-- Source comment: `encryptBatch encrypts a batch of lines using Vault's bulk API`.
`history` are the effects of the run before the call; the result holds the
effects of the call itself. -/
def encryptBatch (sys : Sys) (config : VaultConfig) (history : List Effect)
    (lines : List GoString) : List Effect × Outcome (List GoString) :=
  if lines.length = 0 then ([], .ok [])
  else
    let batchRequests := encryptBatchRequests lines
    if batchRequests.length = 0 then ([], .ok [])
    else
      let data := RequestData.encryptBatchInput batchRequests
      let call := Effect.logicalWrite (encryptPath config) data
      match sys.logicalWrite history (encryptPath config) data with
      | .error err => ([call], .error (.bulkEncryptionFailed (.external err)))
      | .ok none => ([call], .panic)
      | .ok (some secretData) =>
        match sys.decodeEncryptResponse secretData with
        | .marshalError msg => ([call], .error (.marshalResponse (.external msg)))
        | .unmarshalError msg => ([call], .error (.parseResponse (.external msg)))
        | .ok response => ([call], .ok (response.Data.BatchResults.map (fun r => r.Ciphertext)))

/-- The loop `Extract and decode plaintexts` of `decryptBatch`. -/
def decodePlaintexts : List BulkDecryptResult → Except Error (List GoString)
  | [] => .ok []
  | result :: rest =>
    match DecodeString result.Plaintext with
    | none => .error (.decodePlaintext .corruptInput)
    | some plaintextBytes =>
      match decodePlaintexts rest with
      | .error err => .error err
      | .ok results => .ok (plaintextBytes :: results)

/-- Source comment: `decryptBatch decrypts a batch of lines using Vault's bulk API`.
`history` are the effects of the run before the call; the result holds the
effects of the call itself. -/
def decryptBatch (sys : Sys) (config : VaultConfig) (history : List Effect)
    (lines : List GoString) : List Effect × Outcome (List GoString) :=
  if lines.length = 0 then ([], .ok [])
  else
    let batchRequests := decryptBatchRequests lines
    if batchRequests.length = 0 then ([], .ok [])
    else
      let data := RequestData.decryptBatchInput batchRequests
      let call := Effect.logicalWrite (decryptPath config) data
      match sys.logicalWrite history (decryptPath config) data with
      | .error err => ([call], .error (.bulkDecryptionFailed (.external err)))
      | .ok none => ([call], .panic)
      | .ok (some secretData) =>
        match sys.decodeDecryptResponse secretData with
        | .marshalError msg => ([call], .error (.marshalResponse (.external msg)))
        | .unmarshalError msg => ([call], .error (.parseResponse (.external msg)))
        | .ok response =>
          match decodePlaintexts response.Data.BatchResults with
          | .error err => ([call], .error err)
          | .ok results => ([call], .ok results)

/-! ## `vault.go`: files -/

/-- The block `Split content into lines for bulk processing` of `EncryptFile`
and `DecryptFile`. -/
def fileLines (content : GoString) : List GoString :=
  let lines := Split content newline
  if lines.length > 0 ∧ lines.getLast? = some [] then lines.dropLast else lines

/-- The Go slice expression `lines[i:stop]`, for `0 ≤ i ≤ stop ≤ len(lines)`. -/
def slice (lines : List GoString) (i stop : Int) : List GoString :=
  (lines.drop i.toNat).take (stop - i).toNat

/-- The upper bound `end` of a batch: `i + MaxItems`, cut down to `len(lines)`. -/
def batchEnd (maxItems : Int) (len : Nat) (i : Int) : Int :=
  if i + maxItems > len then len else i + maxItems

/-- The loop `Process in batches` of `EncryptFile` and `DecryptFile`, started at
index `i` with the results `acc` and the effects `trace` so far.  `batchFn` is
`vc.encryptBatch` or `vc.decryptBatch`, called with the effects so far, `wrap`
the error of the loop body.  The slice expression panics when `end < i`.  One
unit of fuel is one evaluation of the loop condition. -/
def batchLoop {ε : Type}
    (batchFn : List ε → List GoString → List ε × Outcome (List GoString))
    (wrap : Int → Int → Error → Error) (maxItems : Int) (lines : List GoString) :
    Nat → Int → List GoString → List ε → Option (List ε × Outcome (List GoString))
  | 0, _, _, _ => none
  | fuel + 1, i, acc, trace =>
    if i < lines.length then
      let stop := batchEnd maxItems lines.length i
      if i < 0 ∨ stop < i then some (trace, .panic)
      else
        match batchFn trace (slice lines i stop) with
        | (effects, .ok results) =>
          batchLoop batchFn wrap maxItems lines fuel (i + maxItems) (acc ++ results)
            (trace ++ effects)
        | (effects, .error err) => some (trace ++ effects, .error (wrap i stop err))
        | (effects, .panic) => some (trace ++ effects, .panic)
    else some (trace, .ok acc)

/-- The block `Determine output path` of `EncryptFile`. -/
def encryptOutputPath (sys : Sys) (inputPath outputFolder : GoString) (override : Bool) :
    GoString :=
  if override then inputPath
  else if outputFolder ≠ [] then
    sys.filepathJoin outputFolder (sys.filepathBase inputPath ++ dotEncrypted)
  else inputPath ++ dotEncrypted

/-- The block `Determine output path` of `DecryptFile`. -/
def decryptOutputPath (sys : Sys) (inputPath outputFolder : GoString) (override : Bool) :
    GoString :=
  if override then inputPath
  else if outputFolder ≠ [] then
    let filename := sys.filepathBase inputPath
    let filename := if HasSuffix filename dotEncrypted then TrimSuffix filename dotEncrypted
      else filename
    sys.filepathJoin outputFolder filename
  else
    if HasSuffix inputPath dotEncrypted then TrimSuffix inputPath dotEncrypted
    else inputPath ++ dotDecrypted

/-- The end of `EncryptFile` and `DecryptFile`, from `Create output directory if
it doesn't exist` on: create the folder, write the joined lines, report. -/
def writeOutput (sys : Sys) (outputPath outputFolder : GoString) (override : Bool)
    (resultLines : List GoString) (wrapWrite : Error → Error) (message : GoString)
    (trace : List Effect) : List Effect × Outcome Unit :=
  let content := Join resultLines newline
  let write (trace : List Effect) : List Effect × Outcome Unit :=
    match sys.osWriteFile outputPath content with
    | some err => (trace ++ [.writeFile outputPath content], .error (wrapWrite (.external err)))
    | none =>
      (trace ++ [.writeFile outputPath content, .printf (message ++ outputPath ++ [newline])],
        .ok ())
  if outputFolder ≠ [] ∧ override = false then
    match sys.osMkdirAll outputFolder with
    | some err => (trace ++ [.mkdirAll outputFolder], .error (.createOutputDirectory (.external err)))
    | none => write (trace ++ [.mkdirAll outputFolder])
  else write trace

/-- Source comment: `EncryptFile encrypts a file using bulk operations`.
`history` are the effects of the run before the call; the result holds the
effects of the call itself. -/
def EncryptFile (sys : Sys) (config : VaultConfig) (history : List Effect)
    (inputPath outputFolder : GoString) (override : Bool) (fuel : Nat) :
    Option (List Effect × Outcome Unit) :=
  match sys.osReadFile inputPath with
  | .error err => some ([.readFile inputPath], .error (.readInputFile (.external err)))
  | .ok content =>
    match batchLoop (fun trace => encryptBatch sys config (history ++ trace))
        Error.encryptBatchRange config.MaxItems (fileLines content) fuel 0 []
        [.readFile inputPath] with
    | none => none
    | some (trace, .panic) => some (trace, .panic)
    | some (trace, .error err) => some (trace, .error err)
    | some (trace, .ok encryptedLines) =>
      some (writeOutput sys (encryptOutputPath sys inputPath outputFolder override) outputFolder
        override encryptedLines Error.writeEncryptedFile (str "File encrypted successfully: ")
        trace)

/-- Source comment: `DecryptFile decrypts a file using bulk operations`.
`history` are the effects of the run before the call; the result holds the
effects of the call itself. -/
def DecryptFile (sys : Sys) (config : VaultConfig) (history : List Effect)
    (inputPath outputFolder : GoString) (override : Bool) (fuel : Nat) :
    Option (List Effect × Outcome Unit) :=
  match sys.osReadFile inputPath with
  | .error err => some ([.readFile inputPath], .error (.readInputFile (.external err)))
  | .ok content =>
    match batchLoop (fun trace => decryptBatch sys config (history ++ trace))
        Error.decryptBatchRange config.MaxItems (fileLines content) fuel 0 []
        [.readFile inputPath] with
    | none => none
    | some (trace, .panic) => some (trace, .panic)
    | some (trace, .error err) => some (trace, .error err)
    | some (trace, .ok decryptedLines) =>
      some (writeOutput sys (decryptOutputPath sys inputPath outputFolder override) outputFolder
        override decryptedLines Error.writeDecryptedFile (str "File decrypted successfully: ")
        trace)

/-! ## `vault.go`: single strings and the client -/

/-- Source comment: `NewVaultClient creates a new Vault client`.  The client is
represented by its configuration. -/
def NewVaultClient (sys : Sys) (config : VaultConfig) : List Effect × Except Error VaultConfig :=
  match sys.vaultNewClient config.Addr with
  | some err => ([.newClient config.Addr], .error (.createVaultClient (.external err)))
  | none => ([.newClient config.Addr, .setToken config.Token], .ok config)

/-- The type assertion `secret.Data[key].(string)`. -/
def stringField (key : GoString) (secretData : List (GoString × JSON)) : Option GoString :=
  match lookupField key secretData with
  | some (.string s) => some s
  | _ => none

/-- Source comment: `EncryptString encrypts a single string`. -/
def EncryptString (sys : Sys) (config : VaultConfig) (history : List Effect)
    (text : GoString) : List Effect × Outcome Unit :=
  let data := RequestData.plaintext (EncodeToString text)
  let call := Effect.logicalWrite (encryptPath config) data
  match sys.logicalWrite history (encryptPath config) data with
  | .error err => ([call], .error (.encryptString (.external err)))
  | .ok none => ([call], .panic)
  | .ok (some secretData) =>
    match stringField (str "ciphertext") secretData with
    | none => ([call], .error .ciphertextNotFound)
    | some ciphertext =>
      ([call, .printf (str "Encrypted text: " ++ ciphertext ++ [newline])], .ok ())

/-- Source comment: `DecryptString decrypts a single string`. -/
def DecryptString (sys : Sys) (config : VaultConfig) (history : List Effect)
    (ciphertext : GoString) : List Effect × Outcome Unit :=
  let data := RequestData.ciphertext ciphertext
  let call := Effect.logicalWrite (decryptPath config) data
  match sys.logicalWrite history (decryptPath config) data with
  | .error err => ([call], .error (.decryptString (.external err)))
  | .ok none => ([call], .panic)
  | .ok (some secretData) =>
    match stringField (str "plaintext") secretData with
    | none => ([call], .error .plaintextNotFound)
    | some encodedPlaintext =>
      match DecodeString encodedPlaintext with
      | none => ([call], .error (.decodePlaintext .corruptInput))
      | some plaintextBytes =>
        ([call, .printf (str "Decrypted text: " ++ plaintextBytes ++ [newline])], .ok ())

/-! ## `commands.go` -/

/-- The package-level flag variables of `commands.go`. -/
structure Flags where
  vaultAddr : GoString
  vaultToken : GoString
  transitPath : GoString
  transitKey : GoString
  maxItems : Int
  overrideFile : Bool
  outputFolder : GoString
  inputFile : GoString
  inputText : GoString
  deriving DecidableEq

/-- The first two statements of `getVaultConfig`: an empty address or token is
replaced by the value viper has for `VAULT_ADDR` or `VAULT_TOKEN`. -/
def resolveFallbacks (sys : Sys) (flags : Flags) : Flags × List Effect :=
  let (flags, trace) :=
    if flags.vaultAddr = [] then
      ({ flags with vaultAddr := sys.viperGetString (str "VAULT_ADDR") },
        [Effect.viperGetString (str "VAULT_ADDR")])
    else (flags, [])
  if flags.vaultToken = [] then
    ({ flags with vaultToken := sys.viperGetString (str "VAULT_TOKEN") },
      trace ++ [Effect.viperGetString (str "VAULT_TOKEN")])
  else (flags, trace)

/-- Go `getVaultConfig`: resolves the fallbacks, requires an address and a
token, and copies the five settings into a `VaultConfig`. -/
def getVaultConfig (sys : Sys) (flags : Flags) : Flags × List Effect × Except Error VaultConfig :=
  let (flags, trace) := resolveFallbacks sys flags
  if flags.vaultAddr = [] then (flags, trace, .error .vaultAddrRequired)
  else if flags.vaultToken = [] then (flags, trace, .error .vaultTokenRequired)
  else
    (flags, trace, .ok
      { Addr := flags.vaultAddr
        Token := flags.vaultToken
        TransitPath := flags.transitPath
        TransitKey := flags.transitKey
        MaxItems := flags.maxItems })

/-- Go `validateInputs`; `none` is the nil error. -/
def validateInputs (flags : Flags) : Option Error :=
  if flags.inputFile ≠ [] ∧ flags.inputText ≠ [] then some .bothFileAndText
  else if flags.inputFile = [] ∧ flags.inputText = [] then some .neitherFileNorText
  else none

/-- The common body of `runEncrypt` and `runDecrypt`; `onText` is
`client.EncryptString` or `client.DecryptString`, `onFile` is
`client.EncryptFile` or `client.DecryptFile`. -/
def runCommand (sys : Sys) (flags : Flags)
    (onText : Sys → VaultConfig → List Effect → GoString → List Effect × Outcome Unit)
    (onFile : Sys → VaultConfig → List Effect → GoString → GoString → Bool → Nat →
      Option (List Effect × Outcome Unit))
    (fuel : Nat) : Option (Flags × List Effect × Outcome Unit) :=
  match validateInputs flags with
  | some err => some (flags, [], .error err)
  | none =>
    match getVaultConfig sys flags with
    | (flags, trace, .error err) => some (flags, trace, .error err)
    | (flags, trace, .ok config) =>
      match NewVaultClient sys config with
      | (effects, .error err) => some (flags, trace ++ effects, .error (.createVaultClient err))
      | (effects, .ok client) =>
        if flags.inputText ≠ [] then
          let (textEffects, result) := onText sys client (trace ++ effects) flags.inputText
          some (flags, trace ++ effects ++ textEffects, result)
        else if flags.inputFile ≠ [] then
          match onFile sys client (trace ++ effects) flags.inputFile flags.outputFolder
              flags.overrideFile fuel with
          | none => none
          | some (fileEffects, result) => some (flags, trace ++ effects ++ fileEffects, result)
        else some (flags, trace ++ effects, .error .noInputSpecified)

/-- Go `runEncrypt`. -/
def runEncrypt (sys : Sys) (flags : Flags) (fuel : Nat) :
    Option (Flags × List Effect × Outcome Unit) :=
  runCommand sys flags EncryptString EncryptFile fuel

/-- Go `runDecrypt`. -/
def runDecrypt (sys : Sys) (flags : Flags) (fuel : Nat) :
    Option (Flags × List Effect × Outcome Unit) :=
  runCommand sys flags DecryptString DecryptFile fuel

/-- The line list as the specification words it: the content split on the
newline, the last piece removed exactly when the content ends with a newline. -/
def linesAsSpecified (content : GoString) : List GoString :=
  if content.getLast? = some newline then (Split content newline).dropLast
  else Split content newline

/-- The batches as the specification words them: `ceil(len / b)` consecutive
batches, the one of index `j` being `lines[j*b : j*b + b]` cut at the end of
`lines`. -/
def batchesOf (b : Nat) (lines : List GoString) : List (List GoString) :=
  (List.range ((lines.length + b - 1) / b)).map (fun j => (lines.drop (j * b)).take b)

/-- The calls of a batch function on a list of batches of step `B` taken from
`n` lines, one after the other, each with the effects so far, up to the first
call that does not return results; `i` is the index of the first line of the
first batch, `acc` are the results and `trace` the effects so far.  An error is
wrapped with the index range of its batch. -/
def batchRun {ε : Type} (batchFn : List ε → List GoString → List ε × Outcome (List GoString))
    (wrap : Int → Int → Error → Error) (B n : Nat) :
    List (List GoString) → Nat → List GoString → List ε → List ε × Outcome (List GoString)
  | [], _, acc, trace => (trace, .ok acc)
  | batch :: rest, i, acc, trace =>
    match batchFn trace batch with
    | (effects, .ok results) =>
      batchRun batchFn wrap B n rest (i + B) (acc ++ results) (trace ++ effects)
    | (effects, .error err) =>
      (trace ++ effects, .error (wrap (i : Nat) ((min (i + B) n : Nat) : Int) err))
    | (effects, .panic) => (trace ++ effects, .panic)

/-- The effects in a trace that also records the calls of the batch function. -/
def effectsIn {ε : Type} (trace : List (List GoString ⊕ ε)) : List ε :=
  trace.filterMap (fun entry => match entry with | .inl _ => none | .inr effect => some effect)

/-- The batches the batch function was called with, in a trace that records
these calls. -/
def callsIn {ε : Type} (trace : List (List GoString ⊕ ε)) : List (List GoString) :=
  trace.filterMap (fun entry => match entry with | .inl batch => some batch | .inr _ => none)

/-- Instrumentation of a batch function: every call is recorded in the trace,
in front of the effects of the call; the batch function itself sees the
effects only. -/
def recordCalls {ε : Type} (batchFn : List ε → List GoString → List ε × Outcome (List GoString))
    (trace : List (List GoString ⊕ ε)) (batch : List GoString) :
    List (List GoString ⊕ ε) × Outcome (List GoString) :=
  (.inl batch :: (batchFn (effectsIn trace) batch).1.map .inr,
    (batchFn (effectsIn trace) batch).2)

/-- The request to Vault that the encryption of a batch has to make: none for a
batch without a non-empty line, else one bulk request with the base64
encodings of the non-empty lines of the batch, in their order. -/
def encryptRequestsOf (config : VaultConfig) (batch : List GoString) : List Effect :=
  if batch.filter (fun line => line != []) = [] then []
  else [.logicalWrite (encryptPath config) (.encryptBatchInput
    ((batch.filter (fun line => line != [])).map (fun line => ⟨EncodeToString line⟩)))]

/-- The request to Vault that the decryption of a batch has to make: none for a
batch without a non-empty line, else one bulk request with the non-empty lines
of the batch, in their order. -/
def decryptRequestsOf (config : VaultConfig) (batch : List GoString) : List Effect :=
  if batch.filter (fun line => line != []) = [] then []
  else [.logicalWrite (decryptPath config) (.decryptBatchInput
    ((batch.filter (fun line => line != [])).map (fun line => ⟨line⟩)))]

/-- The entries of a `Data` map that holds the result items under
`data.batch_results`, the place where `BulkEncryptResponse` and
`BulkDecryptResponse` look for them. -/
def nestedResults (key : GoString) (values : List GoString) : List (GoString × JSON) :=
  [(str "data", .object [(str "batch_results",
    .array (values.map (fun value => .object [(key, .string value)])))])]

/-! ## Concrete environments -/

/-- A configuration: transit engine `transit`, key `k`, batch limit 100 (the
default of the `max-items` flag). -/
def exampleConfig : VaultConfig :=
  { Addr := str "http://vault:8200"
    Token := str "token"
    TransitPath := str "transit"
    TransitKey := str "k"
    MaxItems := 100 }

/-- The example configuration with another batch limit. -/
def configWithMaxItems (maxItems : Int) : VaultConfig :=
  { exampleConfig with MaxItems := maxItems }

/-- The file system of the examples: `in.txt` holds `a\n`, `two.txt` holds
`b\na\n`, `same.txt` holds `a\na\n`, `mixed.txt` holds `a\n\nb\n`; every other
read fails, every write succeeds. -/
def exampleReadFile (path : GoString) : Except GoString GoString :=
  if path = str "in.txt" then .ok (str "a\n")
  else if path = str "two.txt" then .ok (str "b\na\n")
  else if path = str "same.txt" then .ok (str "a\na\n")
  else if path = str "mixed.txt" then .ok (str "a\n\nb\n")
  else .error (str "no such file")

/-- Flags with neither a file nor a text input. -/
def noInputFlags : Flags :=
  { vaultAddr := str "http://vault:8200"
    vaultToken := str "token"
    transitPath := str "transit"
    transitKey := str "k"
    maxItems := 100
    overrideFile := false
    outputFolder := []
    inputFile := []
    inputText := [] }

/-- Flags for the file `in.txt` with the batch limit 0. -/
def zeroMaxItemsFlags : Flags :=
  { noInputFlags with maxItems := 0, inputFile := str "in.txt" }

/-- An environment in which Vault answers every request with a secret whose
`Data` map has no entry at all. -/
def emptyDataSys : Sys :=
  { viperGetString := fun _ => []
    vaultNewClient := fun _ => none
    logicalWrite := fun _ _ _ => .ok (some [])
    decodeEncryptResponse := unmarshalBulkEncryptResponse
    decodeDecryptResponse := unmarshalBulkDecryptResponse
    osReadFile := exampleReadFile
    osMkdirAll := fun _ => none
    osWriteFile := fun _ _ => none
    filepathBase := fun path => path
    filepathJoin := fun dir name => dir ++ str "/" ++ name }

/-- The ciphertext the example transit service gives for a base64 plaintext. -/
def transitCipher (plaintext : GoString) : GoString := str "vault:v1:" ++ plaintext

/-- The base64 plaintext the example transit service gives for a ciphertext. -/
def transitPlain (ciphertext : GoString) : GoString := ciphertext.drop 9

/-- The `Data` map of the example transit service for a request: the result
fields `ciphertext`, `plaintext` and `batch_results` are entries of `Data`
itself, which is where `EncryptString` and `DecryptString` read them. -/
def transitData : RequestData → List (GoString × JSON)
  | .plaintext encodedText => [(str "ciphertext", .string (transitCipher encodedText))]
  | .ciphertext ciphertext => [(str "plaintext", .string (transitPlain ciphertext))]
  | .encryptBatchInput batchRequests =>
    [(str "batch_results", .array (batchRequests.map (fun request =>
      .object [(str "ciphertext", .string (transitCipher request.Plaintext))])))]
  | .decryptBatchInput batchRequests =>
    [(str "batch_results", .array (batchRequests.map (fun request =>
      .object [(str "plaintext", .string (transitPlain request.Ciphertext))])))]

/-- An environment with the example transit service: decryption returns the
base64 plaintext that was submitted to encryption. -/
def transitSys : Sys :=
  { emptyDataSys with logicalWrite := fun _ _ data => .ok (some (transitData data)) }

/-- The example transit service with its `Data` map put under one more key
`data`, the place where `BulkEncryptResponse` and `BulkDecryptResponse` look. -/
def nestedTransitSys : Sys :=
  { emptyDataSys with
    logicalWrite := fun _ _ data => .ok (some [(str "data", .object (transitData data))]) }

/-- An environment whose Vault rejects every batch that holds the line `a`
(base64 `YQ==`) and answers every other request like the example service. -/
def rejectingSys : Sys :=
  { emptyDataSys with
    logicalWrite := fun history path data =>
      if data = .encryptBatchInput [⟨str "YQ=="⟩] ∨ data = .decryptBatchInput [⟨str "a"⟩] then
        .error (str "permission denied")
      else nestedTransitSys.logicalWrite history path data }

/-- An environment whose Vault answers the first request of a run like the
example service and lets every later request fail. -/
def flakySys : Sys :=
  { emptyDataSys with
    logicalWrite := fun history path data =>
      if history.any Effect.isNetworkCall then .error (str "timeout")
      else nestedTransitSys.logicalWrite history path data }

/-- An environment in which the transform of a line is the identity: the
service returns as ciphertext the line whose base64 encoding it was sent, and
as plaintext the base64 encoding of the ciphertext it was sent. -/
def identitySys : Sys :=
  { emptyDataSys with
    logicalWrite := fun _ _ data =>
      match data with
      | .encryptBatchInput batchRequests =>
        .ok (some (nestedResults (str "ciphertext")
          (batchRequests.map (fun request => (DecodeString request.Plaintext).getD []))))
      | .decryptBatchInput batchRequests =>
        .ok (some (nestedResults (str "plaintext")
          (batchRequests.map (fun request => EncodeToString request.Ciphertext))))
      | _ => .ok (some []) }

/-! ## Strings: suffixes and splitting -/

theorem hasSuffix_append (q s : GoString) : HasSuffix (q ++ s) s = true := by
  simp [HasSuffix]

theorem trimSuffix_append (q s : GoString) : TrimSuffix (q ++ s) s = q := by
  simp [TrimSuffix, hasSuffix_append]

theorem hasSuffix_iff (p s : GoString) : HasSuffix p s = true ↔ s <:+ p := by
  constructor
  · intro h
    simp only [HasSuffix, Bool.and_eq_true, decide_eq_true_eq, beq_iff_eq] at h
    refine ⟨p.take (p.length - s.length), ?_⟩
    have h2 := List.take_append_drop (p.length - s.length) p
    rw [h.2] at h2
    exact h2
  · rintro ⟨q, rfl⟩
    exact hasSuffix_append q s

theorem split_ne_nil (s : GoString) (sep : Byte) : Split s sep ≠ [] := by
  cases s with
  | nil => simp [Split]
  | cons c cs =>
    simp only [Split]
    split
    · simp
    · split <;> simp

theorem split_append_sep (s : GoString) (sep : Byte) :
    Split (s ++ [sep]) sep = Split s sep ++ [[]] := by
  induction s with
  | nil => simp [Split]
  | cons c cs ih =>
    simp only [List.cons_append, Split, List.append_eq]
    rw [ih]
    by_cases hc : c = sep
    · simp [hc]
    · simp only [hc, if_false]
      obtain ⟨x, xs, hx⟩ := List.exists_cons_of_ne_nil (split_ne_nil cs sep)
      simp [hx]

theorem split_append_other (s : GoString) (c sep : Byte) (hc : c ≠ sep) :
    ∃ init piece, Split (s ++ [c]) sep = init ++ [piece ++ [c]] := by
  induction s with
  | nil => exact ⟨[], [], by simp [Split, hc]⟩
  | cons d ds ih =>
    obtain ⟨init, piece, h⟩ := ih
    simp only [List.cons_append, Split, List.append_eq]
    rw [h]
    by_cases hd : d = sep
    · exact ⟨[] :: init, piece, by simp [hd]⟩
    · simp only [hd, if_false]
      cases init with
      | nil => exact ⟨[], d :: piece, by simp⟩
      | cons x xs => exact ⟨(d :: x) :: xs, piece, by simp⟩

theorem split_getLast (s : GoString) (sep : Byte) :
    (Split s sep).getLast? = some [] ↔ s = [] ∨ s.getLast? = some sep := by
  rcases List.eq_nil_or_concat s with rfl | ⟨t, c, rfl⟩
  · simp [Split]
  · by_cases hc : c = sep
    · subst hc
      simp [split_append_sep]
    · obtain ⟨init, piece, h⟩ := split_append_other t c sep hc
      simp [h, hc]

/-! ## Base64 round trip -/

theorem decodeSextet_encodeSextet (n : Nat) : decodeSextet (encodeSextet n) = some (n % 64) := by
  have h : ∀ i : Fin 64, decodeSextet (encodeSextet i.val) = some i.val := by decide
  have h2 := h ⟨n % 64, Nat.mod_lt _ (by decide)⟩
  simpa [encodeSextet, Nat.mod_mod] using h2

theorem encodeSextet_ne (n : Nat) :
    encodeSextet n ≠ padChar ∧ encodeSextet n ≠ 10 ∧ encodeSextet n ≠ 13 := by
  have h : ∀ i : Fin 64, encodeSextet i.val ≠ padChar ∧ encodeSextet i.val ≠ 10 ∧
      encodeSextet i.val ≠ 13 := by decide
  have h2 := h ⟨n % 64, Nat.mod_lt _ (by decide)⟩
  simpa [encodeSextet, Nat.mod_mod] using h2

theorem byte_ofNat_eq (a : Byte) (n : Nat) (h : n % 256 = a.val) : (Fin.ofNat n : Byte) = a := by
  apply Fin.ext
  simp [Fin.ofNat, h]

theorem decodeQuanta_encodeToString (s : GoString) : decodeQuanta (EncodeToString s) = some s := by
  induction s using EncodeToString.induct with
  | case1 => rfl
  | case2 a =>
    simp only [EncodeToString, decodeQuanta, decodeSextet_encodeSextet, if_true, and_self]
    have h := a.isLt
    rw [byte_ofNat_eq a _ (by omega)]
  | case3 a b =>
    have ha := a.isLt
    have hb := b.isLt
    simp only [EncodeToString, decodeQuanta, decodeSextet_encodeSextet,
      (encodeSextet_ne _).1, if_true, if_false]
    rw [byte_ofNat_eq a _ (by omega), byte_ofNat_eq b _ (by omega)]
  | case4 a b c rest ih =>
    have ha := a.isLt
    have hb := b.isLt
    have hc := c.isLt
    simp only [EncodeToString, decodeQuanta, decodeSextet_encodeSextet,
      (encodeSextet_ne _).1, if_false, ih]
    rw [byte_ofNat_eq a _ (by omega), byte_ofNat_eq b _ (by omega), byte_ofNat_eq c _ (by omega)]

theorem encodeToString_filter (s : GoString) :
    (EncodeToString s).filter (fun c => c != 10 && c != 13) = EncodeToString s := by
  have hp : (padChar != 10 && padChar != 13) = true := by decide
  have he : ∀ n, (encodeSextet n != 10 && encodeSextet n != 13) = true := by
    intro n
    have := encodeSextet_ne n
    simp [this.2.1, this.2.2]
  induction s using EncodeToString.induct with
  | case1 => rfl
  | case2 a => simp [EncodeToString, he, hp]
  | case3 a b => simp [EncodeToString, he, hp]
  | case4 a b c rest ih => simp only [EncodeToString, List.filter_cons, he, if_true, ih]

/-- Decoding an encoded byte string gives the byte string back. -/
theorem decodeString_encodeToString (s : GoString) : DecodeString (EncodeToString s) = some s := by
  rw [DecodeString, encodeToString_filter, decodeQuanta_encodeToString]

/-! ## Lines of a file (C6) -/

theorem fileLines_eq (content : GoString) :
    fileLines content =
      if content = [] ∨ content.getLast? = some newline then (Split content newline).dropLast
      else Split content newline := by
  unfold fileLines
  have hlen : (Split content newline).length > 0 :=
    List.length_pos.mpr (split_ne_nil content newline)
  simp only [hlen, true_and, split_getLast]

/-- C6, counterexample: for the empty content `strings.Split` yields the single
piece `""`, which the program removes although the content does not end with a
newline; the line list is empty instead of `[""]`. -/
theorem fileLines_empty_content :
    fileLines [] = [] ∧ linesAsSpecified [] = [[]] ∧ fileLines [] ≠ linesAsSpecified [] := by
  decide

/-- C6, amended: the line list is the content split on the newline byte with the
last piece removed exactly when the content is empty or ends with a newline;
only that one piece is removed (for `t ++ "\n"` the lines are all pieces of `t`),
so `"a\n"` gives `["a"]`, `"a\n\n"` gives `["a", ""]` and `"a\n\nb\n"` gives
`["a", "", "b"]`; for every content that is not empty this is the line list of
the specification. -/
theorem fileLines_drops_one_trailing_piece (content : GoString) :
    (fileLines content =
      if content = [] ∨ content.getLast? = some newline then (Split content newline).dropLast
      else Split content newline) ∧
    fileLines (content ++ [newline]) = Split content newline ∧
    (content = [] ∨ fileLines content = linesAsSpecified content) ∧
    fileLines (str "a\n") = [str "a"] ∧
    fileLines (str "a\n\n") = [str "a", str ""] ∧
    fileLines (str "a\n\nb\n") = [str "a", str "", str "b"] := by
  refine ⟨fileLines_eq content, ?_, ?_, by decide, by decide, by decide⟩
  · rw [fileLines_eq]
    simp [split_append_sep]
  · by_cases h : content = []
    · exact Or.inl h
    · right
      rw [fileLines_eq]
      simp [linesAsSpecified, h]

/-! ## Destination paths (C7, C10) -/

/-- C7: without override and without output folder `EncryptFile` writes to
`p ++ ".encrypted"`; `DecryptFile` writes to `q` when `p = q ++ ".encrypted"`
(one suffix removed) and to `p ++ ".decrypted"` when `p` does not end with
`".encrypted"`; with override both write to `p`, whatever the output folder. -/
theorem output_path_resolution (sys : Sys) (p : GoString) :
    encryptOutputPath sys p [] false = p ++ dotEncrypted ∧
    (∀ q, p = q ++ dotEncrypted → decryptOutputPath sys p [] false = q) ∧
    (¬ dotEncrypted <:+ p → decryptOutputPath sys p [] false = p ++ dotDecrypted) ∧
    (∀ folder, encryptOutputPath sys p folder true = p ∧
      decryptOutputPath sys p folder true = p) := by
  refine ⟨by simp [encryptOutputPath], ?_, ?_, ?_⟩
  · rintro q rfl
    simp [decryptOutputPath, hasSuffix_append, trimSuffix_append]
  · intro h
    have hs : HasSuffix p dotEncrypted = false := by
      rw [← Bool.not_eq_true, hasSuffix_iff]
      exact h
    simp [decryptOutputPath, hs]
  · intro folder
    simp [encryptOutputPath, decryptOutputPath]

/-- C10: without override and without output folder, the destination
`DecryptFile` computes for the destination `EncryptFile` computes for `p` is `p`. -/
theorem output_path_round_trip (sys : Sys) (p : GoString) :
    decryptOutputPath sys (encryptOutputPath sys p [] false) [] false = p := by
  simp [encryptOutputPath, decryptOutputPath, hasSuffix_append, trimSuffix_append]

/-! ## Input validation (C8) -/

/-- C8: `validateInputs` returns an error exactly when the file input and the
text input are both set or both empty, and then `runEncrypt` and `runDecrypt`
return that error with an empty effect trace: no environment lookup, no client
and no request to Vault. -/
theorem validateInputs_first (sys : Sys) (flags : Flags) (fuel : Nat) :
    (validateInputs flags ≠ none ↔
      (flags.inputFile ≠ [] ∧ flags.inputText ≠ []) ∨
      (flags.inputFile = [] ∧ flags.inputText = [])) ∧
    (∀ err, validateInputs flags = some err →
      runEncrypt sys flags fuel = some (flags, [], .error err) ∧
      runDecrypt sys flags fuel = some (flags, [], .error err)) := by
  constructor
  · unfold validateInputs
    by_cases h1 : flags.inputFile = [] <;> by_cases h2 : flags.inputText = [] <;> simp [h1, h2]
  · intro err h
    simp [runEncrypt, runDecrypt, runCommand, h]

/-! ## The batching loop -/

theorem batchEnd_of_pos (maxItems : Int) (n k : Nat) (hB : 1 ≤ maxItems) :
    batchEnd maxItems n k = ((min (k + maxItems.toNat) n : Nat) : Int) := by
  unfold batchEnd
  split <;> omega

theorem slice_of_pos (lines : List GoString) (maxItems : Int) (k : Nat) (hB : 1 ≤ maxItems) :
    slice lines k (batchEnd maxItems lines.length k) = (lines.drop k).take maxItems.toNat := by
  rw [batchEnd_of_pos _ _ _ hB]
  unfold slice
  have h1 : ((k : Int)).toNat = k := by omega
  rw [h1]
  by_cases h : k + maxItems.toNat ≤ lines.length
  · have h2 : (((min (k + maxItems.toNat) lines.length : Nat) : Int) - (k : Int)).toNat
        = maxItems.toNat := by omega
    rw [h2]
  · have h2 : (((min (k + maxItems.toNat) lines.length : Nat) : Int) - (k : Int)).toNat
        = lines.length - k := by omega
    rw [h2, List.take_of_length_le (by simp), List.take_of_length_le (by simp; omega)]

/-- One iteration of the loop for a positive batch limit. -/
theorem batchLoop_step {ε : Type}
    (batchFn : List ε → List GoString → List ε × Outcome (List GoString))
    (wrap : Int → Int → Error → Error) (maxItems : Int) (lines : List GoString)
    (hB : 1 ≤ maxItems) (fuel k : Nat) (acc : List GoString) (trace : List ε)
    (hk : k < lines.length) :
    batchLoop batchFn wrap maxItems lines (fuel + 1) k acc trace =
      match batchFn trace ((lines.drop k).take maxItems.toNat) with
      | (effects, .ok results) =>
        batchLoop batchFn wrap maxItems lines fuel ((k + maxItems.toNat : Nat) : Int)
          (acc ++ results) (trace ++ effects)
      | (effects, .error err) =>
        some (trace ++ effects,
          .error (wrap k ((min (k + maxItems.toNat) lines.length : Nat) : Int) err))
      | (effects, .panic) => some (trace ++ effects, .panic) := by
  have hlt : ((k : Int) < (lines.length : Int)) := by omega
  have hnp : ¬ ((k : Int) < 0 ∨ batchEnd maxItems lines.length k < k) := by
    rw [batchEnd_of_pos _ _ _ hB]
    omega
  have hnext : (k : Int) + maxItems = ((k + maxItems.toNat : Nat) : Int) := by omega
  simp only [batchLoop, hlt, if_true, hnp, if_false, slice_of_pos _ _ _ hB, hnext]
  rw [batchEnd_of_pos _ _ _ hB]

/-- The loop ends when the index has reached the length. -/
theorem batchLoop_done {ε : Type}
    (batchFn : List ε → List GoString → List ε × Outcome (List GoString))
    (wrap : Int → Int → Error → Error) (maxItems : Int) (lines : List GoString)
    (fuel k : Nat) (acc : List GoString) (trace : List ε) (hk : lines.length ≤ k) :
    batchLoop batchFn wrap maxItems lines (fuel + 1) k acc trace = some (trace, .ok acc) := by
  have hlt : ¬ ((k : Int) < (lines.length : Int)) := by omega
  simp only [batchLoop, hlt, if_false]

/-! ## The batches of the specification -/

theorem batchesOf_nil (b : Nat) (hb : 1 ≤ b) : batchesOf b [] = [] := by
  have h : (b - 1) / b = 0 := Nat.div_eq_of_lt (by omega)
  simp [batchesOf, h]

theorem batchesOf_count (b n : Nat) (hb : 1 ≤ b) (hn : 1 ≤ n) :
    (n + b - 1) / b = (n - b + b - 1) / b + 1 := by
  by_cases h : b ≤ n
  · have h1 : n + b - 1 = (n - 1) + b := by omega
    have h2 : n - b + b - 1 = n - 1 := by omega
    rw [h1, h2, Nat.add_div_right _ (by omega)]
  · have h1 : n - b + b - 1 = b - 1 := by omega
    have h2 : n + b - 1 = (n - 1) + b := by omega
    rw [h1, h2, Nat.add_div_right _ (by omega), Nat.div_eq_of_lt (by omega),
      Nat.div_eq_of_lt (by omega)]

theorem batchesOf_cons (b : Nat) (lines : List GoString) (hb : 1 ≤ b) (hl : lines ≠ []) :
    batchesOf b lines = lines.take b :: batchesOf b (lines.drop b) := by
  have hn : 1 ≤ lines.length := List.length_pos.mpr hl
  unfold batchesOf
  rw [batchesOf_count b lines.length hb hn, List.range_succ_eq_map]
  simp only [List.map_cons, zero_mul, List.drop_zero, List.map_map, List.length_drop,
    List.cons.injEq, true_and]
  apply List.map_congr_left
  intro j _
  simp only [Function.comp, Nat.succ_eq_add_one, List.drop_drop]
  congr 2
  ring

theorem batchesOf_flatten (b : Nat) (hb : 1 ≤ b) (lines : List GoString) :
    (batchesOf b lines).flatten = lines := by
  generalize hlen : lines.length = n
  induction n using Nat.strong_induction_on generalizing lines with
  | _ n ih =>
    by_cases hl : lines = []
    · subst hl
      simp [batchesOf_nil b hb]
    · have hn : 1 ≤ lines.length := List.length_pos.mpr hl
      rw [batchesOf_cons b lines hb hl, List.flatten_cons,
        ih (lines.drop b).length (by simp; omega) (lines.drop b) rfl, List.take_append_drop]

theorem batchesOf_length (b : Nat) (lines : List GoString) :
    (batchesOf b lines).length = (lines.length + b - 1) / b := by
  simp [batchesOf]

theorem batchesOf_getElem (b : Nat) (lines : List GoString) (j : Nat)
    (hj : j < (batchesOf b lines).length) :
    (batchesOf b lines)[j] = (lines.drop (j * b)).take b := by
  simp [batchesOf]

theorem batchesOf_eq_nil (b : Nat) (hb : 1 ≤ b) (lines : List GoString)
    (h : batchesOf b lines = []) : lines = [] := by
  by_contra hl
  rw [batchesOf_cons b lines hb hl] at h
  exact List.noConfusion h

theorem batchesOf_length_le (B : Nat) (lines : List GoString) :
    ∀ batch ∈ batchesOf B lines, batch.length ≤ B := by
  intro batch h
  simp only [batchesOf, List.mem_map, List.mem_range] at h
  obtain ⟨j, _, rfl⟩ := h
  simp

/-! ## The loop as a run over the batches -/

/-- For a batch limit of at least 1 and enough fuel, the loop started at line
`k` is the run of the batch function over the batches of the lines from `k` on. -/
theorem batchLoop_eq_batchRun {ε : Type}
    (batchFn : List ε → List GoString → List ε × Outcome (List GoString))
    (wrap : Int → Int → Error → Error) (B : Nat) (hB : 1 ≤ B) (lines : List GoString) :
    ∀ (m k : Nat) (acc : List GoString) (trace : List ε), lines.length - k ≤ m →
      ∀ fuel, m < fuel →
        batchLoop batchFn wrap B lines fuel k acc trace =
          some (batchRun batchFn wrap B lines.length (batchesOf B (lines.drop k)) k acc trace) := by
  have hBi : (1 : Int) ≤ (B : Int) := by omega
  have htoNat : ((B : Int)).toNat = B := by simp
  intro m
  induction m with
  | zero =>
    intro k acc trace hm fuel hfuel
    obtain ⟨f, rfl⟩ : ∃ f, fuel = f + 1 := ⟨fuel - 1, by omega⟩
    have hk : lines.length ≤ k := by omega
    rw [batchLoop_done _ _ _ _ _ _ _ _ hk, List.drop_of_length_le hk, batchesOf_nil _ hB]
    rfl
  | succ m ih =>
    intro k acc trace hm fuel hfuel
    obtain ⟨f, rfl⟩ : ∃ f, fuel = f + 1 := ⟨fuel - 1, by omega⟩
    by_cases hk : lines.length ≤ k
    · rw [batchLoop_done _ _ _ _ _ _ _ _ hk, List.drop_of_length_le hk, batchesOf_nil _ hB]
      rfl
    · have hk2 : k < lines.length := by omega
      have hne : lines.drop k ≠ [] := by
        intro h
        have := congrArg List.length h
        simp at this
        omega
      rw [batchLoop_step _ _ _ _ hBi _ _ _ _ hk2, htoNat, batchesOf_cons _ _ hB hne]
      simp only [batchRun, List.drop_drop]
      rcases hfn : batchFn trace ((lines.drop k).take B) with ⟨effects, outcome⟩
      cases outcome with
      | ok results =>
        simp only
        exact ih (k + B) _ _ (by omega) f (by omega)
      | error err => rfl
      | panic => rfl

theorem batchRun_append_ok {ε : Type}
    (batchFn : List ε → List GoString → List ε × Outcome (List GoString))
    (wrap : Int → Int → Error → Error) (B n : Nat) (rest : List (List GoString)) :
    ∀ (pre : List (List GoString)) (i : Nat) (acc : List GoString) (trace : List ε)
      (acc' : List GoString) (trace' : List ε),
      batchRun batchFn wrap B n pre i acc trace = (trace', .ok acc') →
      batchRun batchFn wrap B n (pre ++ rest) i acc trace =
        batchRun batchFn wrap B n rest (i + pre.length * B) acc' trace' := by
  intro pre
  induction pre with
  | nil =>
    intro i acc trace acc' trace' h
    simp only [batchRun, Prod.mk.injEq, Outcome.ok.injEq] at h
    obtain ⟨rfl, rfl⟩ := h
    simp
  | cons x pre ih =>
    intro i acc trace acc' trace' h
    simp only [batchRun, List.cons_append, List.append_eq] at h ⊢
    rcases hfn : batchFn trace x with ⟨effects, outcome⟩
    rw [hfn] at h
    cases outcome with
    | ok results =>
      simp only at h ⊢
      rw [ih _ _ _ _ _ h]
      congr 1
      simp only [List.length_cons, Nat.add_mul]
      omega
    | error err => simp at h
    | panic => simp at h

/-- A run that returns results does not depend on the error wrapper nor on the
indices. -/
theorem batchRun_ok_indep {ε : Type}
    (batchFn : List ε → List GoString → List ε × Outcome (List GoString))
    (wrap wrap' : Int → Int → Error → Error) (B n B' n' : Nat) :
    ∀ (batches : List (List GoString)) (i i' : Nat) (acc : List GoString) (trace : List ε)
      (acc' : List GoString) (trace' : List ε),
      batchRun batchFn wrap B n batches i acc trace = (trace', .ok acc') →
      batchRun batchFn wrap' B' n' batches i' acc trace = (trace', .ok acc') := by
  intro batches
  induction batches with
  | nil =>
    intro i i' acc trace acc' trace' h
    exact h
  | cons x rest ih =>
    intro i i' acc trace acc' trace' h
    simp only [batchRun] at h ⊢
    rcases hfn : batchFn trace x with ⟨effects, outcome⟩
    rw [hfn] at h
    cases outcome with
    | ok results => exact ih _ _ _ _ _ _ h
    | error err => simp at h
    | panic => simp at h

theorem batchRun_all_ok {ε : Type}
    (batchFn : List ε → List GoString → List ε × Outcome (List GoString))
    (effectsOf : List GoString → List ε) (resultsOf : List GoString → List GoString)
    (hfn : ∀ trace batch, batchFn trace batch = (effectsOf batch, .ok (resultsOf batch)))
    (wrap : Int → Int → Error → Error) (B n : Nat) :
    ∀ (batches : List (List GoString)) (i : Nat) (acc : List GoString) (trace : List ε),
      batchRun batchFn wrap B n batches i acc trace =
        (trace ++ (batches.map effectsOf).flatten,
          .ok (acc ++ (batches.map resultsOf).flatten)) := by
  intro batches
  induction batches with
  | nil => intro i acc trace; simp [batchRun]
  | cons x rest ih =>
    intro i acc trace
    simp only [batchRun, hfn, ih, List.map_cons, List.flatten_cons, List.append_assoc]

theorem effectsIn_append {ε : Type} (a b : List (List GoString ⊕ ε)) :
    effectsIn (a ++ b) = effectsIn a ++ effectsIn b := by
  simp [effectsIn]

theorem callsIn_append {ε : Type} (a b : List (List GoString ⊕ ε)) :
    callsIn (a ++ b) = callsIn a ++ callsIn b := by
  simp [callsIn]

theorem effectsIn_call {ε : Type} (batch : List GoString) (effects : List ε) :
    effectsIn (Sum.inl batch :: effects.map Sum.inr) = effects := by
  induction effects with
  | nil => rfl
  | cons e es ih =>
    simp only [effectsIn, List.map_cons, List.filterMap_cons] at ih ⊢
    rw [ih]

theorem callsIn_call {ε : Type} (batch : List GoString) (effects : List ε) :
    callsIn (Sum.inl batch :: effects.map (Sum.inr : ε → List GoString ⊕ ε)) = [batch] := by
  induction effects with
  | nil => rfl
  | cons e es ih =>
    simp only [callsIn, List.map_cons, List.filterMap_cons] at ih ⊢
    exact ih

/-- The run of an instrumented batch function: its effects and its outcome are
those of the batch function itself, and the recorded calls are an initial
segment of the batches, all of them when the run returns results. -/
theorem batchRun_recordCalls {ε : Type}
    (batchFn : List ε → List GoString → List ε × Outcome (List GoString))
    (wrap : Int → Int → Error → Error) (B n : Nat) :
    ∀ (batches : List (List GoString)) (i : Nat) (acc : List GoString)
      (trace : List (List GoString ⊕ ε)),
      ∃ called, called <+: batches ∧
        callsIn (batchRun (recordCalls batchFn) wrap B n batches i acc trace).1 =
          callsIn trace ++ called ∧
        (effectsIn (batchRun (recordCalls batchFn) wrap B n batches i acc trace).1,
          (batchRun (recordCalls batchFn) wrap B n batches i acc trace).2) =
          batchRun batchFn wrap B n batches i acc (effectsIn trace) ∧
        (∀ results, (batchRun (recordCalls batchFn) wrap B n batches i acc trace).2 =
          .ok results → called = batches) := by
  intro batches
  induction batches with
  | nil =>
    intro i acc trace
    exact ⟨[], List.prefix_refl _, by simp [batchRun], by simp [batchRun], fun _ _ => rfl⟩
  | cons x rest ih =>
    intro i acc trace
    rcases hfn : batchFn (effectsIn trace) x with ⟨effects, outcome⟩
    have hrec : recordCalls batchFn trace x = (.inl x :: effects.map .inr, outcome) := by
      simp [recordCalls, hfn]
    cases outcome with
    | ok results =>
      obtain ⟨called, h1, h2, h3, h4⟩ :=
        ih (i + B) (acc ++ results) (trace ++ (.inl x :: effects.map .inr))
      refine ⟨x :: called, ?_, ?_, ?_, ?_⟩
      · exact (List.prefix_cons_inj x).mpr h1
      · simp only [batchRun, hrec, h2, callsIn_append, callsIn_call]
        simp
      · simp only [batchRun, hrec, hfn, h3, effectsIn_append, effectsIn_call]
      · intro r hr
        simp only [batchRun, hrec] at hr
        rw [h4 r hr]
    | error err =>
      refine ⟨[x], ?_, ?_, ?_, ?_⟩
      · exact ⟨rest, rfl⟩
      · simp only [batchRun, hrec, callsIn_append, callsIn_call]
      · simp only [batchRun, hrec, hfn, effectsIn_append, effectsIn_call]
      · intro r hr
        simp [batchRun, hrec] at hr
    | panic =>
      refine ⟨[x], ?_, ?_, ?_, ?_⟩
      · exact ⟨rest, rfl⟩
      · simp only [batchRun, hrec, callsIn_append, callsIn_call]
      · simp only [batchRun, hrec, hfn, effectsIn_append, effectsIn_call]
      · intro r hr
        simp [batchRun, hrec] at hr

/-- The effects of a run are the effects so far followed by effects of the
calls of the batch function. -/
theorem batchRun_effects {ε : Type}
    (batchFn : List ε → List GoString → List ε × Outcome (List GoString))
    (P : ε → Prop) (hP : ∀ trace batch, ∀ e ∈ (batchFn trace batch).1, P e)
    (wrap : Int → Int → Error → Error) (B n : Nat) :
    ∀ (batches : List (List GoString)) (i : Nat) (acc : List GoString) (trace : List ε),
      ∃ added, (batchRun batchFn wrap B n batches i acc trace).1 = trace ++ added ∧
        ∀ e ∈ added, P e := by
  intro batches
  induction batches with
  | nil =>
    intro i acc trace
    exact ⟨[], by simp [batchRun], fun e he => absurd he (List.not_mem_nil _)⟩
  | cons x rest ih =>
    intro i acc trace
    have hx := hP trace x
    rcases hfn : batchFn trace x with ⟨effects, outcome⟩
    rw [hfn] at hx
    cases outcome with
    | ok results =>
      obtain ⟨added, h1, h2⟩ := ih (i + B) (acc ++ results) (trace ++ effects)
      refine ⟨effects ++ added, ?_, ?_⟩
      · simp only [batchRun, hfn, h1, List.append_assoc]
      · intro e he
        rcases List.mem_append.mp he with he | he
        · exact hx e he
        · exact h2 e he
    | error err => exact ⟨effects, by simp only [batchRun, hfn], hx⟩
    | panic => exact ⟨effects, by simp only [batchRun, hfn], hx⟩

/-! ## The batch functions -/

theorem encryptBatch_nil (sys : Sys) (config : VaultConfig) (history : List Effect) :
    encryptBatch sys config history [] = ([], .ok []) := by
  simp [encryptBatch]

theorem decryptBatch_nil (sys : Sys) (config : VaultConfig) (history : List Effect) :
    decryptBatch sys config history [] = ([], .ok []) := by
  simp [decryptBatch]

theorem encryptBatch_effects (sys : Sys) (config : VaultConfig) (history : List Effect)
    (batch : List GoString) :
    (encryptBatch sys config history batch).1 = [] ∨
    (encryptBatch sys config history batch).1 =
      [.logicalWrite (encryptPath config) (.encryptBatchInput (encryptBatchRequests batch))] := by
  unfold encryptBatch
  split
  · exact Or.inl rfl
  · simp only
    split
    · exact Or.inl rfl
    · right
      split
      · rfl
      · rfl
      · split <;> rfl

theorem encryptBatch_error_effects (sys : Sys) (config : VaultConfig) (history : List Effect)
    (batch : List GoString) (err : Error)
    (h : (encryptBatch sys config history batch).2 = .error err) :
    (encryptBatch sys config history batch).1 =
      [.logicalWrite (encryptPath config) (.encryptBatchInput (encryptBatchRequests batch))] := by
  unfold encryptBatch at h ⊢
  split
  · rename_i h0
    simp [h0] at h
  · rename_i h0
    simp only [h0, if_false] at h ⊢
    split
    · rename_i h1
      simp [h1] at h
    · split
      · rfl
      · rfl
      · split <;> rfl

theorem decryptBatch_effects (sys : Sys) (config : VaultConfig) (history : List Effect)
    (batch : List GoString) :
    (decryptBatch sys config history batch).1 = [] ∨
    (decryptBatch sys config history batch).1 =
      [.logicalWrite (decryptPath config) (.decryptBatchInput (decryptBatchRequests batch))] := by
  unfold decryptBatch
  split
  · exact Or.inl rfl
  · simp only
    split
    · exact Or.inl rfl
    · right
      split
      · rfl
      · rfl
      · split
        · rfl
        · rfl
        · split <;> rfl

theorem decryptBatch_error_effects (sys : Sys) (config : VaultConfig) (history : List Effect)
    (batch : List GoString) (err : Error)
    (h : (decryptBatch sys config history batch).2 = .error err) :
    (decryptBatch sys config history batch).1 =
      [.logicalWrite (decryptPath config) (.decryptBatchInput (decryptBatchRequests batch))] := by
  unfold decryptBatch at h ⊢
  split
  · rename_i h0
    simp [h0] at h
  · rename_i h0
    simp only [h0, if_false] at h ⊢
    split
    · rename_i h1
      simp [h1] at h
    · split
      · rfl
      · rfl
      · split
        · rfl
        · rfl
        · split <;> rfl

theorem encryptBatch_no_file_write (sys : Sys) (config : VaultConfig) (history : List Effect)
    (batch : List GoString) :
    ∀ e ∈ (encryptBatch sys config history batch).1, e.isFileWrite = false := by
  intro e he
  rcases encryptBatch_effects sys config history batch with h | h
  · rw [h] at he
    exact absurd he (List.not_mem_nil _)
  · rw [h, List.mem_singleton] at he
    subst he
    rfl

theorem decryptBatch_no_file_write (sys : Sys) (config : VaultConfig) (history : List Effect)
    (batch : List GoString) :
    ∀ e ∈ (decryptBatch sys config history batch).1, e.isFileWrite = false := by
  intro e he
  rcases decryptBatch_effects sys config history batch with h | h
  · rw [h] at he
    exact absurd he (List.not_mem_nil _)
  · rw [h, List.mem_singleton] at he
    subst he
    rfl

/-! ## Termination of the loop -/

theorem batchLoop_zero_diverges {ε : Type}
    (batchFn : List ε → List GoString → List ε × Outcome (List GoString))
    (hnil : ∀ trace, batchFn trace [] = ([], .ok []))
    (wrap : Int → Int → Error → Error) (lines : List GoString) (hl : lines ≠ []) :
    ∀ (fuel : Nat) (acc : List GoString) (trace : List ε),
      batchLoop batchFn wrap 0 lines fuel 0 acc trace = none := by
  have hn : 1 ≤ lines.length := List.length_pos.mpr hl
  intro fuel
  induction fuel with
  | zero => intro acc trace; rfl
  | succ f ih =>
    intro acc trace
    have hlt : ((0 : Int) < (lines.length : Int)) := by omega
    have hend : batchEnd 0 lines.length 0 = 0 := by
      unfold batchEnd
      split <;> omega
    have hslice : slice lines 0 0 = [] := by simp [slice]
    simp only [batchLoop, hlt, if_true, hend, lt_self_iff_false, or_self, if_false, hslice, hnil,
      List.append_nil, add_zero]
    exact ih acc trace

theorem batchLoop_negative_panics {ε : Type}
    (batchFn : List ε → List GoString → List ε × Outcome (List GoString))
    (wrap : Int → Int → Error → Error) (maxItems : Int) (hB : maxItems < 0)
    (lines : List GoString) (hl : lines ≠ []) (fuel : Nat) (acc : List GoString)
    (trace : List ε) :
    batchLoop batchFn wrap maxItems lines (fuel + 1) 0 acc trace = some (trace, .panic) := by
  have hn : 1 ≤ lines.length := List.length_pos.mpr hl
  have hlt : ((0 : Int) < (lines.length : Int)) := by omega
  have hend : batchEnd maxItems lines.length 0 < 0 := by
    unfold batchEnd
    split <;> omega
  simp only [batchLoop, hlt, if_true, hend, lt_self_iff_false, or_true]

theorem batchLoop_total {ε : Type}
    (batchFn : List ε → List GoString → List ε × Outcome (List GoString))
    (wrap : Int → Int → Error → Error) (maxItems : Int) (lines : List GoString)
    (hB : 1 ≤ maxItems) (acc : List GoString) (trace : List ε) :
    ∃ result, ∀ fuel, lines.length < fuel →
      batchLoop batchFn wrap maxItems lines fuel 0 acc trace = some result := by
  obtain ⟨B, rfl⟩ : ∃ B : Nat, maxItems = B := ⟨maxItems.toNat, by omega⟩
  refine ⟨batchRun batchFn wrap B lines.length (batchesOf B lines) 0 acc trace,
    fun fuel hfuel => ?_⟩
  have h := batchLoop_eq_batchRun batchFn wrap B (by omega) lines lines.length 0 acc trace
    (by omega) fuel hfuel
  simpa using h

theorem getVaultConfig_of_flags (sys : Sys) (flags : Flags) (ha : flags.vaultAddr ≠ [])
    (ht : flags.vaultToken ≠ []) :
    getVaultConfig sys flags =
      (flags, [], .ok
        { Addr := flags.vaultAddr
          Token := flags.vaultToken
          TransitPath := flags.transitPath
          TransitKey := flags.transitKey
          MaxItems := flags.maxItems }) := by
  simp [getVaultConfig, resolveFallbacks, ha, ht]

theorem getVaultConfig_maxItems (sys : Sys) (flags : Flags) (config : VaultConfig)
    (h : (getVaultConfig sys flags).2.2 = .ok config) : config.MaxItems = flags.maxItems := by
  by_cases h1 : flags.vaultAddr = [] <;> by_cases h2 : flags.vaultToken = [] <;>
    by_cases h3 : sys.viperGetString (str "VAULT_ADDR") = [] <;>
    by_cases h4 : sys.viperGetString (str "VAULT_TOKEN") = [] <;>
    simp [getVaultConfig, resolveFallbacks, h1, h2, h3, h4] at h <;>
    rw [← h]

theorem encryptFile_zero_diverges (sys : Sys) (config : VaultConfig) (history : List Effect)
    (inputPath outputFolder : GoString) (override : Bool) (content : GoString)
    (hB : config.MaxItems = 0) (hread : sys.osReadFile inputPath = .ok content)
    (hl : fileLines content ≠ []) (fuel : Nat) :
    EncryptFile sys config history inputPath outputFolder override fuel = none := by
  simp only [EncryptFile, hread, hB]
  rw [batchLoop_zero_diverges _ (fun trace => encryptBatch_nil sys config (history ++ trace)) _ _
    hl fuel]

theorem decryptFile_zero_diverges (sys : Sys) (config : VaultConfig) (history : List Effect)
    (inputPath outputFolder : GoString) (override : Bool) (content : GoString)
    (hB : config.MaxItems = 0) (hread : sys.osReadFile inputPath = .ok content)
    (hl : fileLines content ≠ []) (fuel : Nat) :
    DecryptFile sys config history inputPath outputFolder override fuel = none := by
  simp only [DecryptFile, hread, hB]
  rw [batchLoop_zero_diverges _ (fun trace => decryptBatch_nil sys config (history ++ trace)) _ _
    hl fuel]

theorem encryptFile_total (sys : Sys) (config : VaultConfig) (history : List Effect)
    (inputPath outputFolder : GoString) (override : Bool) (hB : 1 ≤ config.MaxItems) :
    ∃ bound result, ∀ fuel, bound < fuel →
      EncryptFile sys config history inputPath outputFolder override fuel = some result := by
  cases hread : sys.osReadFile inputPath with
  | error err =>
    exact ⟨0, ([.readFile inputPath], .error (.readInputFile (.external err))),
      fun fuel _ => by simp only [EncryptFile, hread]⟩
  | ok content =>
    obtain ⟨⟨tr, out⟩, hE⟩ := batchLoop_total
      (fun trace => encryptBatch sys config (history ++ trace)) Error.encryptBatchRange
      config.MaxItems (fileLines content) hB [] [.readFile inputPath]
    refine ⟨(fileLines content).length, ?_⟩
    cases out with
    | ok v =>
      exact ⟨writeOutput sys (encryptOutputPath sys inputPath outputFolder override)
        outputFolder override v Error.writeEncryptedFile
        (str "File encrypted successfully: ") tr,
        fun fuel hfuel => by simp only [EncryptFile, hread, hE fuel hfuel]⟩
    | error e =>
      exact ⟨(tr, .error e), fun fuel hfuel => by simp only [EncryptFile, hread, hE fuel hfuel]⟩
    | panic =>
      exact ⟨(tr, .panic), fun fuel hfuel => by simp only [EncryptFile, hread, hE fuel hfuel]⟩

theorem decryptFile_total (sys : Sys) (config : VaultConfig) (history : List Effect)
    (inputPath outputFolder : GoString) (override : Bool) (hB : 1 ≤ config.MaxItems) :
    ∃ bound result, ∀ fuel, bound < fuel →
      DecryptFile sys config history inputPath outputFolder override fuel = some result := by
  cases hread : sys.osReadFile inputPath with
  | error err =>
    exact ⟨0, ([.readFile inputPath], .error (.readInputFile (.external err))),
      fun fuel _ => by simp only [DecryptFile, hread]⟩
  | ok content =>
    obtain ⟨⟨tr, out⟩, hD⟩ := batchLoop_total
      (fun trace => decryptBatch sys config (history ++ trace)) Error.decryptBatchRange
      config.MaxItems (fileLines content) hB [] [.readFile inputPath]
    refine ⟨(fileLines content).length, ?_⟩
    cases out with
    | ok v =>
      exact ⟨writeOutput sys (decryptOutputPath sys inputPath outputFolder override)
        outputFolder override v Error.writeDecryptedFile
        (str "File decrypted successfully: ") tr,
        fun fuel hfuel => by simp only [DecryptFile, hread, hD fuel hfuel]⟩
    | error e =>
      exact ⟨(tr, .error e), fun fuel hfuel => by simp only [DecryptFile, hread, hD fuel hfuel]⟩
    | panic =>
      exact ⟨(tr, .panic), fun fuel hfuel => by simp only [DecryptFile, hread, hD fuel hfuel]⟩

/-- C9: for `MaxItems ≥ 1` the loop of `EncryptFile` and of `DecryptFile` ends
on every line sequence (with more fuel than lines the result no longer depends
on the fuel), and so do the two functions; for `MaxItems = 0` and a non-empty
line sequence the loop and the two functions never end, for a negative
`MaxItems` the first slice expression panics.  Nothing checks the value:
`getVaultConfig` succeeds whenever address and token are set, for every value
of the `max-items` flag, and hands the flag on as it is, so that `runEncrypt`
and `runDecrypt` with `--max-items 0` on a file with at least one line never
end. -/
theorem batch_loop_termination (sys : Sys) (config : VaultConfig) (history : List Effect)
    (inputPath outputFolder : GoString) (override : Bool) :
    (1 ≤ config.MaxItems → ∀ (lines : List GoString) (trace : List Effect),
      ∃ resultE resultD, ∀ fuel, lines.length < fuel →
        batchLoop (fun trace => encryptBatch sys config (history ++ trace))
          Error.encryptBatchRange config.MaxItems lines fuel 0 [] trace = some resultE ∧
        batchLoop (fun trace => decryptBatch sys config (history ++ trace))
          Error.decryptBatchRange config.MaxItems lines fuel 0 [] trace = some resultD) ∧
    (1 ≤ config.MaxItems → ∃ bound resultE resultD, ∀ fuel, bound < fuel →
        EncryptFile sys config history inputPath outputFolder override fuel = some resultE ∧
        DecryptFile sys config history inputPath outputFolder override fuel = some resultD) ∧
    (config.MaxItems = 0 → ∀ (lines : List GoString) (trace : List Effect), lines ≠ [] →
      ∀ fuel,
        batchLoop (fun trace => encryptBatch sys config (history ++ trace))
          Error.encryptBatchRange config.MaxItems lines fuel 0 [] trace = none ∧
        batchLoop (fun trace => decryptBatch sys config (history ++ trace))
          Error.decryptBatchRange config.MaxItems lines fuel 0 [] trace = none) ∧
    (config.MaxItems = 0 → ∀ content, sys.osReadFile inputPath = .ok content →
      fileLines content ≠ [] → ∀ fuel,
        EncryptFile sys config history inputPath outputFolder override fuel = none ∧
        DecryptFile sys config history inputPath outputFolder override fuel = none) ∧
    (config.MaxItems < 0 → ∀ (lines : List GoString) (trace : List Effect), lines ≠ [] →
      ∀ fuel,
        batchLoop (fun trace => encryptBatch sys config (history ++ trace))
          Error.encryptBatchRange config.MaxItems lines (fuel + 1) 0 [] trace =
          some (trace, .panic) ∧
        batchLoop (fun trace => decryptBatch sys config (history ++ trace))
          Error.decryptBatchRange config.MaxItems lines (fuel + 1) 0 [] trace =
          some (trace, .panic)) ∧
    (∀ flags c, (getVaultConfig sys flags).2.2 = .ok c → c.MaxItems = flags.maxItems) ∧
    (∀ flags : Flags, flags.vaultAddr ≠ [] → flags.vaultToken ≠ [] →
      getVaultConfig sys flags =
        (flags, [], .ok
          { Addr := flags.vaultAddr
            Token := flags.vaultToken
            TransitPath := flags.transitPath
            TransitKey := flags.transitKey
            MaxItems := flags.maxItems })) ∧
    (∀ (flags : Flags) (content : GoString), flags.maxItems = 0 →
      flags.vaultAddr ≠ [] → flags.vaultToken ≠ [] →
      flags.inputText = [] → flags.inputFile ≠ [] →
      sys.vaultNewClient flags.vaultAddr = none →
      sys.osReadFile flags.inputFile = .ok content → fileLines content ≠ [] →
      ∀ fuel, runEncrypt sys flags fuel = none ∧ runDecrypt sys flags fuel = none) := by
  refine ⟨?_, ?_, ?_, ?_, ?_, fun flags c h => getVaultConfig_maxItems sys flags c h,
    fun flags ha ht => getVaultConfig_of_flags sys flags ha ht, ?_⟩
  · intro hB lines trace
    obtain ⟨rE, hE⟩ := batchLoop_total (fun trace => encryptBatch sys config (history ++ trace))
      Error.encryptBatchRange config.MaxItems lines hB [] trace
    obtain ⟨rD, hD⟩ := batchLoop_total (fun trace => decryptBatch sys config (history ++ trace))
      Error.decryptBatchRange config.MaxItems lines hB [] trace
    exact ⟨rE, rD, fun fuel hfuel => ⟨hE fuel hfuel, hD fuel hfuel⟩⟩
  · intro hB
    obtain ⟨bE, rE, hE⟩ := encryptFile_total sys config history inputPath outputFolder override hB
    obtain ⟨bD, rD, hD⟩ := decryptFile_total sys config history inputPath outputFolder override hB
    exact ⟨max bE bD, rE, rD, fun fuel hfuel =>
      ⟨hE fuel (lt_of_le_of_lt (le_max_left _ _) hfuel),
        hD fuel (lt_of_le_of_lt (le_max_right _ _) hfuel)⟩⟩
  · intro hB lines trace hl fuel
    rw [hB]
    exact ⟨batchLoop_zero_diverges _ (fun t => encryptBatch_nil sys config (history ++ t)) _
        lines hl fuel [] trace,
      batchLoop_zero_diverges _ (fun t => decryptBatch_nil sys config (history ++ t)) _
        lines hl fuel [] trace⟩
  · intro hB content hread hl fuel
    exact ⟨encryptFile_zero_diverges sys config history inputPath outputFolder override content
        hB hread hl fuel,
      decryptFile_zero_diverges sys config history inputPath outputFolder override content
        hB hread hl fuel⟩
  · intro hB lines trace hl fuel
    exact ⟨batchLoop_negative_panics _ _ _ hB lines hl fuel [] trace,
      batchLoop_negative_panics _ _ _ hB lines hl fuel [] trace⟩
  · intro flags content hm ha ht htext hfile hclient hread hl fuel
    have hv : validateInputs flags = none := by simp [validateInputs, htext, hfile]
    constructor
    · simp only [runEncrypt, runCommand, hv, getVaultConfig_of_flags sys flags ha ht,
        NewVaultClient, hclient, htext, hfile, ne_eq, not_true_eq_false, not_false_eq_true,
        if_true, if_false]
      rw [encryptFile_zero_diverges sys _ _ _ _ _ content hm hread hl fuel]
    · simp only [runDecrypt, runCommand, hv, getVaultConfig_of_flags sys flags ha ht,
        NewVaultClient, hclient, htext, hfile, ne_eq, not_true_eq_false, not_false_eq_true,
        if_true, if_false]
      rw [decryptFile_zero_diverges sys _ _ _ _ _ content hm hread hl fuel]

/-! ## A failing batch (C5) -/

theorem batchesOf_take_append (B : Nat) (hB : 1 ≤ B) :
    ∀ (k : Nat) (lines : List GoString), k * B ≤ lines.length →
      batchesOf B lines = batchesOf B (lines.take (k * B)) ++ batchesOf B (lines.drop (k * B)) ∧
      (batchesOf B (lines.take (k * B))).length = k := by
  intro k
  induction k with
  | zero =>
    intro lines _
    simp [batchesOf_nil B hB]
  | succ k ih =>
    intro lines hk
    have hk' : k * B + B ≤ lines.length := by
      rw [Nat.add_mul, Nat.one_mul] at hk
      exact hk
    have hl : lines ≠ [] := by
      intro h
      rw [h] at hk'
      simp at hk'
      omega
    have hl2 : lines.take ((k + 1) * B) ≠ [] := by
      intro h
      have := congrArg List.length h
      simp at this
      rcases this with h1 | h1
      · omega
      · exact hl h1
    obtain ⟨h1, h2⟩ := ih (lines.drop B) (by simp; omega)
    have ht : (lines.take ((k + 1) * B)).take B = lines.take B := by
      rw [List.take_take]
      congr 1
      rw [Nat.add_mul, Nat.one_mul]
      omega
    have hd : (lines.take ((k + 1) * B)).drop B = (lines.drop B).take (k * B) := by
      rw [List.drop_take]
      congr 1
      rw [Nat.add_mul, Nat.one_mul]
      omega
    have hdd : (lines.drop B).drop (k * B) = lines.drop ((k + 1) * B) := by
      rw [List.drop_drop]
      congr 1
      rw [Nat.add_mul, Nat.one_mul]
      omega
    constructor
    · rw [batchesOf_cons B lines hB hl, batchesOf_cons B _ hB hl2, ht, hd, h1, hdd]
      simp
    · rw [batchesOf_cons B _ hB hl2, hd, List.length_cons, h2]

/-- If the loop run on the lines before the batch of index `k` returns results and
the batch function then fails on that batch, the loop on all lines returns the
error of that call, wrapped with the index range of the batch, right after the
effects of that call. -/
theorem batchLoop_failure_after_prefix {ε : Type}
    (batchFn : List ε → List GoString → List ε × Outcome (List GoString))
    (wrap : Int → Int → Error → Error) (B : Nat) (hB : 1 ≤ B) (lines : List GoString)
    (k : Nat) (hk : k * B < lines.length) (fuel0 : Nat) (hfuel0 : k * B < fuel0)
    (trace0 trace : List ε) (results : List GoString)
    (hbefore : batchLoop batchFn wrap B (lines.take (k * B)) fuel0 0 [] trace0 =
      some (trace, .ok results))
    (effects : List ε) (err : Error)
    (hfail : batchFn trace ((lines.drop (k * B)).take B) = (effects, .error err))
    (fuel : Nat) (hfuel : lines.length < fuel) :
    batchLoop batchFn wrap B lines fuel 0 [] trace0 =
      some (trace ++ effects,
        .error (wrap ((k * B : Nat) : Int) ((min (k * B + B) lines.length : Nat) : Int) err)) := by
  have hcast : ((0 : Nat) : Int) = 0 := rfl
  obtain ⟨hsplit, hlen⟩ := batchesOf_take_append B hB k lines (by omega)
  have hpre := batchLoop_eq_batchRun batchFn wrap B hB (lines.take (k * B))
    (lines.take (k * B)).length 0 [] trace0 (by omega) fuel0 (by simp; omega)
  rw [hcast, hbefore, List.drop_zero] at hpre
  have hrun := batchRun_ok_indep batchFn wrap wrap B _ B lines.length _ 0 0 [] trace0 _ _
    (Option.some.inj hpre).symm
  have hne : lines.drop (k * B) ≠ [] := by
    intro h
    have := congrArg List.length h
    simp at this
    omega
  have hall := batchLoop_eq_batchRun batchFn wrap B hB lines lines.length 0 [] trace0
    (by omega) fuel hfuel
  rw [hcast, List.drop_zero, hsplit,
    batchRun_append_ok batchFn wrap B lines.length _ _ 0 [] trace0 _ _ hrun, hlen,
    batchesOf_cons B _ hB hne] at hall
  rw [hall]
  simp only [batchRun, hfail, Nat.zero_add]

theorem batchLoop_no_file_write
    (batchFn : List Effect → List GoString → List Effect × Outcome (List GoString))
    (hfn : ∀ trace batch, ∀ e ∈ (batchFn trace batch).1, e.isFileWrite = false)
    (wrap : Int → Int → Error → Error) (B : Nat) (hB : 1 ≤ B) (lines : List GoString)
    (fuel : Nat) (hfuel : lines.length < fuel) (trace0 trace : List Effect)
    (outcome : Outcome (List GoString))
    (h0 : ∀ e ∈ trace0, e.isFileWrite = false)
    (h : batchLoop batchFn wrap B lines fuel 0 [] trace0 = some (trace, outcome)) :
    ∀ e ∈ trace, e.isFileWrite = false := by
  have hcast : ((0 : Nat) : Int) = 0 := rfl
  have hrun := batchLoop_eq_batchRun batchFn wrap B hB lines lines.length 0 [] trace0
    (by omega) fuel hfuel
  rw [hcast, h] at hrun
  obtain ⟨added, h1, h2⟩ := batchRun_effects batchFn (fun e => e.isFileWrite = false) hfn wrap B
    lines.length (batchesOf B (lines.drop 0)) 0 [] trace0
  rw [← Option.some.inj hrun] at h1
  simp only at h1
  intro e he
  rw [h1] at he
  rcases List.mem_append.mp he with he | he
  · exact h0 e he
  · exact h2 e he

/-- C5: let the batch limit be `B ≥ 1`, let the loop run on the lines before
the batch of index `k` return results with the effects `trace`, and let the
call for that batch then return the error `err`.  Then `EncryptFile` (and
likewise `DecryptFile`) returns `err` wrapped with the index range
`i = k * B`, `end = min (i + B) n` of that batch; its effects are `trace`,
followed by the request of the failing batch: no directory is created, no file
is written and no batch after the failing one is submitted.  The answer of Vault may depend on the
requests before, so the failing batch may repeat an earlier one. -/
theorem batch_failure_aborts (sys : Sys) (config : VaultConfig) (history : List Effect)
    (inputPath outputFolder : GoString) (override : Bool) (content : GoString)
    (B : Nat) (hB : 1 ≤ B) (hcfg : config.MaxItems = B)
    (hread : sys.osReadFile inputPath = .ok content)
    (k : Nat) (hk : k * B < (fileLines content).length)
    (fuel0 : Nat) (hfuel0 : k * B < fuel0) (trace : List Effect) (results : List GoString)
    (err : Error) (fuel : Nat) (hfuel : (fileLines content).length < fuel) :
    (batchLoop (fun t => encryptBatch sys config (history ++ t)) Error.encryptBatchRange B
        ((fileLines content).take (k * B)) fuel0 0 [] [.readFile inputPath] =
        some (trace, .ok results) →
      (encryptBatch sys config (history ++ trace)
        (((fileLines content).drop (k * B)).take B)).2 = .error err →
      EncryptFile sys config history inputPath outputFolder override fuel =
        some (trace ++ [.logicalWrite (encryptPath config) (.encryptBatchInput
            (encryptBatchRequests (((fileLines content).drop (k * B)).take B)))],
          .error (.encryptBatchRange ((k * B : Nat) : Int)
            ((min (k * B + B) (fileLines content).length : Nat) : Int) err)) ∧
      ∀ e ∈ trace ++ [.logicalWrite (encryptPath config) (.encryptBatchInput
            (encryptBatchRequests (((fileLines content).drop (k * B)).take B)))],
        e.isFileWrite = false) ∧
    (batchLoop (fun t => decryptBatch sys config (history ++ t)) Error.decryptBatchRange B
        ((fileLines content).take (k * B)) fuel0 0 [] [.readFile inputPath] =
        some (trace, .ok results) →
      (decryptBatch sys config (history ++ trace)
        (((fileLines content).drop (k * B)).take B)).2 = .error err →
      DecryptFile sys config history inputPath outputFolder override fuel =
        some (trace ++ [.logicalWrite (decryptPath config) (.decryptBatchInput
            (decryptBatchRequests (((fileLines content).drop (k * B)).take B)))],
          .error (.decryptBatchRange ((k * B : Nat) : Int)
            ((min (k * B + B) (fileLines content).length : Nat) : Int) err)) ∧
      ∀ e ∈ trace ++ [.logicalWrite (decryptPath config) (.decryptBatchInput
            (decryptBatchRequests (((fileLines content).drop (k * B)).take B)))],
        e.isFileWrite = false) := by
  have hread0 : ∀ e ∈ [Effect.readFile inputPath], e.isFileWrite = false := by
    intro e he
    rw [List.mem_singleton] at he
    subst he
    rfl
  constructor
  · intro hbefore hfail
    have heff := encryptBatch_error_effects sys config _ _ err hfail
    have hcall : encryptBatch sys config (history ++ trace)
        (((fileLines content).drop (k * B)).take B) =
        ([.logicalWrite (encryptPath config) (.encryptBatchInput
          (encryptBatchRequests (((fileLines content).drop (k * B)).take B)))], .error err) := by
      rw [← heff, ← hfail]
    have hloop := batchLoop_failure_after_prefix
      (fun t => encryptBatch sys config (history ++ t)) Error.encryptBatchRange B hB
      (fileLines content) k hk fuel0 hfuel0 [.readFile inputPath] trace results hbefore _ err
      hcall fuel hfuel
    constructor
    · simp only [EncryptFile, hread, hcfg, hloop]
    · have hpre := batchLoop_no_file_write (fun t => encryptBatch sys config (history ++ t))
        (fun t batch => encryptBatch_no_file_write sys config (history ++ t) batch)
        Error.encryptBatchRange B hB ((fileLines content).take (k * B)) fuel0
        (by simp; omega) [.readFile inputPath] trace (.ok results) hread0 hbefore
      intro e he
      rcases List.mem_append.mp he with he | he
      · exact hpre e he
      · rw [List.mem_singleton] at he
        subst he
        rfl
  · intro hbefore hfail
    have heff := decryptBatch_error_effects sys config _ _ err hfail
    have hcall : decryptBatch sys config (history ++ trace)
        (((fileLines content).drop (k * B)).take B) =
        ([.logicalWrite (decryptPath config) (.decryptBatchInput
          (decryptBatchRequests (((fileLines content).drop (k * B)).take B)))], .error err) := by
      rw [← heff, ← hfail]
    have hloop := batchLoop_failure_after_prefix
      (fun t => decryptBatch sys config (history ++ t)) Error.decryptBatchRange B hB
      (fileLines content) k hk fuel0 hfuel0 [.readFile inputPath] trace results hbefore _ err
      hcall fuel hfuel
    constructor
    · simp only [DecryptFile, hread, hcfg, hloop]
    · have hpre := batchLoop_no_file_write (fun t => decryptBatch sys config (history ++ t))
        (fun t batch => decryptBatch_no_file_write sys config (history ++ t) batch)
        Error.decryptBatchRange B hB ((fileLines content).take (k * B)) fuel0
        (by simp; omega) [.readFile inputPath] trace (.ok results) hread0 hbefore
      intro e he
      rcases List.mem_append.mp he with he | he
      · exact hpre e he
      · rw [List.mem_singleton] at he
        subst he
        rfl

/-! ## Recorded calls and the identity transform (C1, C2) -/

/-- The instrumented loop makes the run of the loop itself, and the calls it
records are an initial segment of the batches of the lines, all of them when
the loop returns results. -/
theorem batchLoop_recordCalls {ε : Type}
    (batchFn : List ε → List GoString → List ε × Outcome (List GoString))
    (wrap : Int → Int → Error → Error) (B : Nat) (hB : 1 ≤ B) (lines : List GoString)
    (fuel : Nat) (hfuel : lines.length < fuel) :
    ∃ trace outcome,
      batchLoop (recordCalls batchFn) wrap B lines fuel 0 [] [] = some (trace, outcome) ∧
      batchLoop batchFn wrap B lines fuel 0 [] [] = some (effectsIn trace, outcome) ∧
      callsIn trace <+: batchesOf B lines ∧
      (∀ results, outcome = .ok results → callsIn trace = batchesOf B lines) := by
  have hcast : ((0 : Nat) : Int) = 0 := rfl
  have hrec := batchLoop_eq_batchRun (recordCalls batchFn) wrap B hB lines lines.length 0 [] []
    (by omega) fuel hfuel
  have hrun := batchLoop_eq_batchRun batchFn wrap B hB lines lines.length 0 [] []
    (by omega) fuel hfuel
  rw [hcast, List.drop_zero] at hrec hrun
  obtain ⟨called, h1, h2, h3, h4⟩ := batchRun_recordCalls batchFn wrap B lines.length
    (batchesOf B lines) 0 [] []
  have h2' : callsIn (batchRun (recordCalls batchFn) wrap B lines.length (batchesOf B lines) 0
      [] []).1 = called := by
    rw [h2]
    rfl
  refine ⟨_, _, hrec, ?_, ?_, ?_⟩
  · rw [hrun, h3]
    rfl
  · rw [h2']
    exact h1
  · intro results hr
    rw [h2']
    exact h4 results hr

theorem encryptBatch_identity (sys : Sys) (config : VaultConfig)
    (hE : ∀ (h : List Effect) (ls : List GoString), ls ≠ [] → (∀ l ∈ ls, l ≠ []) →
      ∃ data,
        sys.logicalWrite h (encryptPath config)
          (.encryptBatchInput (ls.map (fun l => ⟨EncodeToString l⟩))) = .ok (some data) ∧
        sys.decodeEncryptResponse data = .ok ⟨⟨ls.map (fun l => ⟨l⟩)⟩⟩)
    (history : List Effect) (batch : List GoString) :
    encryptBatch sys config history batch =
      (encryptRequestsOf config batch, .ok (batch.filter (fun line => line != []))) := by
  unfold encryptBatch encryptRequestsOf encryptBatchRequests
  by_cases h0 : batch.length = 0
  · have : batch = [] := List.length_eq_zero.mp h0
    simp [this]
  · simp only [h0, if_false, List.length_map]
    by_cases h1 : (batch.filter (fun line => line != [])).length = 0
    · have : batch.filter (fun line => line != []) = [] := List.length_eq_zero.mp h1
      simp [this]
    · have hne : batch.filter (fun line => line != []) ≠ [] := fun h => h1 (by rw [h]; rfl)
      obtain ⟨data, hw, hd⟩ := hE history (batch.filter (fun line => line != [])) hne
        (fun l hl => by simpa using (List.mem_filter.mp hl).2)
      simp only [h1, if_false, hne, hw, hd, List.map_map]
      congr 2
      exact List.map_id' _

theorem decryptBatch_identity (sys : Sys) (config : VaultConfig)
    (hD : ∀ (h : List Effect) (ls : List GoString), ls ≠ [] → (∀ l ∈ ls, l ≠ []) →
      ∃ data,
        sys.logicalWrite h (decryptPath config)
          (.decryptBatchInput (ls.map (fun l => ⟨l⟩))) = .ok (some data) ∧
        sys.decodeDecryptResponse data = .ok ⟨⟨ls.map (fun l => ⟨EncodeToString l⟩)⟩⟩)
    (history : List Effect) (batch : List GoString) :
    decryptBatch sys config history batch =
      (decryptRequestsOf config batch, .ok (batch.filter (fun line => line != []))) := by
  have hdec : ∀ ls : List GoString,
      decodePlaintexts (ls.map (fun l => ⟨EncodeToString l⟩)) = .ok ls := by
    intro ls
    induction ls with
    | nil => rfl
    | cons l rest ih => simp [decodePlaintexts, decodeString_encodeToString, ih]
  unfold decryptBatch decryptRequestsOf decryptBatchRequests
  by_cases h0 : batch.length = 0
  · have : batch = [] := List.length_eq_zero.mp h0
    simp [this]
  · simp only [h0, if_false, List.length_map]
    by_cases h1 : (batch.filter (fun line => line != [])).length = 0
    · have : batch.filter (fun line => line != []) = [] := List.length_eq_zero.mp h1
      simp [this]
    · have hne : batch.filter (fun line => line != []) ≠ [] := fun h => h1 (by rw [h]; rfl)
      obtain ⟨data, hw, hd⟩ := hD history (batch.filter (fun line => line != [])) hne
        (fun l hl => by simpa using (List.mem_filter.mp hl).2)
      simp only [h1, if_false, hne, hw, hd, hdec]

theorem recorded_calls_partition {ε : Type}
    (batchFn : List ε → List GoString → List ε × Outcome (List GoString))
    (wrap : Int → Int → Error → Error) (B : Nat) (hB : 1 ≤ B) (U : List GoString)
    (fuel : Nat) (hfuel : U.length < fuel) (results : List GoString) (effects : List ε)
    (hrun : batchLoop batchFn wrap B U fuel 0 [] [] = some (effects, .ok results)) :
    ∃ trace,
      batchLoop (recordCalls batchFn) wrap B U fuel 0 [] [] = some (trace, .ok results) ∧
      (callsIn trace).flatten = U ∧
      (∀ batch ∈ callsIn trace, batch.length ≤ B) ∧
      (∀ j (hj : j < (callsIn trace).length), (callsIn trace)[j] = (U.drop (j * B)).take B) := by
  obtain ⟨trace, outcome, h1, h2, _, h4⟩ := batchLoop_recordCalls batchFn wrap B hB U fuel hfuel
  rw [hrun] at h2
  have hout : outcome = .ok results := by
    have := Option.some.inj h2
    simp only [Prod.mk.injEq] at this
    exact this.2.symm
  have hcalls := h4 results hout
  rw [hout] at h1
  refine ⟨trace, h1, ?_, ?_, ?_⟩
  · rw [hcalls]
    exact batchesOf_flatten B hB U
  · rw [hcalls]
    exact batchesOf_length_le B U
  · intro j hj
    simp only [hcalls] at hj ⊢
    exact batchesOf_getElem B U j hj

/-- C1: let the transform of a line be the identity, that is, let Vault return
as ciphertexts the lines whose base64 encodings it is sent, and as plaintexts
the base64 encodings of the ciphertexts it is sent.  Then for a batch limit of
at least 1 the loop of `EncryptFile` and the loop of `DecryptFile` return
exactly the non-empty lines of `U` in their original order; for every batch
they submit its non-empty lines in one request, and no request for a batch
without one; the batches they pass to `encryptBatch` and `decryptBatch` have at
most `B` lines each, the batch of index `j` is `U[j*B : j*B + B]` (cut at the end
of `U`), and their concatenation is `U`.  `EncryptFile` and `DecryptFile` on a
file with the lines `U` write these non-empty lines, joined by newlines. -/
theorem identity_transform_keeps_order (sys : Sys) (config : VaultConfig)
    (history : List Effect) (B : Nat) (hB : 1 ≤ B) (U : List GoString) (fuel : Nat)
    (hfuel : U.length < fuel)
    (hE : ∀ (h : List Effect) (ls : List GoString), ls ≠ [] → (∀ l ∈ ls, l ≠ []) →
      ∃ data,
        sys.logicalWrite h (encryptPath config)
          (.encryptBatchInput (ls.map (fun l => ⟨EncodeToString l⟩))) = .ok (some data) ∧
        sys.decodeEncryptResponse data = .ok ⟨⟨ls.map (fun l => ⟨l⟩)⟩⟩)
    (hD : ∀ (h : List Effect) (ls : List GoString), ls ≠ [] → (∀ l ∈ ls, l ≠ []) →
      ∃ data,
        sys.logicalWrite h (decryptPath config)
          (.decryptBatchInput (ls.map (fun l => ⟨l⟩))) = .ok (some data) ∧
        sys.decodeDecryptResponse data = .ok ⟨⟨ls.map (fun l => ⟨EncodeToString l⟩)⟩⟩) :
    batchLoop (fun t => encryptBatch sys config (history ++ t)) Error.encryptBatchRange B U
        fuel 0 [] [] =
      some (((batchesOf B U).map (encryptRequestsOf config)).flatten,
        .ok (U.filter (fun line => line != []))) ∧
    batchLoop (fun t => decryptBatch sys config (history ++ t)) Error.decryptBatchRange B U
        fuel 0 [] [] =
      some (((batchesOf B U).map (decryptRequestsOf config)).flatten,
        .ok (U.filter (fun line => line != []))) ∧
    (∃ trace,
      batchLoop (recordCalls (fun t => encryptBatch sys config (history ++ t)))
        Error.encryptBatchRange B U fuel 0 [] [] =
        some (trace, .ok (U.filter (fun line => line != []))) ∧
      (callsIn trace).flatten = U ∧
      (∀ batch ∈ callsIn trace, batch.length ≤ B) ∧
      (∀ j (hj : j < (callsIn trace).length),
        (callsIn trace)[j] = (U.drop (j * B)).take B)) ∧
    (∃ trace,
      batchLoop (recordCalls (fun t => decryptBatch sys config (history ++ t)))
        Error.decryptBatchRange B U fuel 0 [] [] =
        some (trace, .ok (U.filter (fun line => line != []))) ∧
      (callsIn trace).flatten = U ∧
      (∀ batch ∈ callsIn trace, batch.length ≤ B) ∧
      (∀ j (hj : j < (callsIn trace).length),
        (callsIn trace)[j] = (U.drop (j * B)).take B)) ∧
    (∀ inputPath content, config.MaxItems = B → sys.osReadFile inputPath = .ok content →
      fileLines content = U →
      (sys.osWriteFile (inputPath ++ dotEncrypted)
          (Join (U.filter (fun line => line != [])) newline) = none →
        EncryptFile sys config history inputPath [] false fuel =
          some (.readFile inputPath ::
            (((batchesOf B U).map (encryptRequestsOf config)).flatten ++
            [.writeFile (inputPath ++ dotEncrypted)
                (Join (U.filter (fun line => line != [])) newline),
              .printf (str "File encrypted successfully: " ++ (inputPath ++ dotEncrypted) ++
                [newline])]), .ok ())) ∧
      (sys.osWriteFile (decryptOutputPath sys inputPath [] false)
          (Join (U.filter (fun line => line != [])) newline) = none →
        DecryptFile sys config history inputPath [] false fuel =
          some (.readFile inputPath ::
            (((batchesOf B U).map (decryptRequestsOf config)).flatten ++
            [.writeFile (decryptOutputPath sys inputPath [] false)
                (Join (U.filter (fun line => line != [])) newline),
              .printf (str "File decrypted successfully: " ++
                decryptOutputPath sys inputPath [] false ++ [newline])]), .ok ()))) := by
  have hcast : ((0 : Nat) : Int) = 0 := rfl
  have hflat : ((batchesOf B U).map (fun batch => batch.filter (fun line => line != []))).flatten
      = U.filter (fun line => line != []) := by
    rw [← List.filter_flatten, batchesOf_flatten B hB]
  have hEfrom : ∀ trace0 : List Effect,
      batchLoop (fun t => encryptBatch sys config (history ++ t))
        Error.encryptBatchRange B U fuel 0 [] trace0 =
      some (trace0 ++ ((batchesOf B U).map (encryptRequestsOf config)).flatten,
        .ok (U.filter (fun line => line != []))) := by
    intro trace0
    have h := batchLoop_eq_batchRun (fun t => encryptBatch sys config (history ++ t))
      Error.encryptBatchRange B hB U U.length 0 [] trace0 (by omega) fuel hfuel
    rw [hcast, List.drop_zero, batchRun_all_ok _ (encryptRequestsOf config)
      (fun batch => batch.filter (fun line => line != []))
      (fun t batch => encryptBatch_identity sys config hE (history ++ t) batch), hflat] at h
    simpa using h
  have hDfrom : ∀ trace0 : List Effect,
      batchLoop (fun t => decryptBatch sys config (history ++ t))
        Error.decryptBatchRange B U fuel 0 [] trace0 =
      some (trace0 ++ ((batchesOf B U).map (decryptRequestsOf config)).flatten,
        .ok (U.filter (fun line => line != []))) := by
    intro trace0
    have h := batchLoop_eq_batchRun (fun t => decryptBatch sys config (history ++ t))
      Error.decryptBatchRange B hB U U.length 0 [] trace0 (by omega) fuel hfuel
    rw [hcast, List.drop_zero, batchRun_all_ok _ (decryptRequestsOf config)
      (fun batch => batch.filter (fun line => line != []))
      (fun t batch => decryptBatch_identity sys config hD (history ++ t) batch), hflat] at h
    simpa using h
  have hEloop : batchLoop (fun t => encryptBatch sys config (history ++ t))
      Error.encryptBatchRange B U fuel 0 [] [] =
      some (((batchesOf B U).map (encryptRequestsOf config)).flatten,
        .ok (U.filter (fun line => line != []))) := by
    have h := batchLoop_eq_batchRun (fun t => encryptBatch sys config (history ++ t))
      Error.encryptBatchRange B hB U U.length 0 [] [] (by omega) fuel hfuel
    rw [hcast, List.drop_zero, batchRun_all_ok _ (encryptRequestsOf config)
      (fun batch => batch.filter (fun line => line != []))
      (fun t batch => encryptBatch_identity sys config hE (history ++ t) batch), hflat] at h
    simpa using h
  have hDloop : batchLoop (fun t => decryptBatch sys config (history ++ t))
      Error.decryptBatchRange B U fuel 0 [] [] =
      some (((batchesOf B U).map (decryptRequestsOf config)).flatten,
        .ok (U.filter (fun line => line != []))) := by
    have h := batchLoop_eq_batchRun (fun t => decryptBatch sys config (history ++ t))
      Error.decryptBatchRange B hB U U.length 0 [] [] (by omega) fuel hfuel
    rw [hcast, List.drop_zero, batchRun_all_ok _ (decryptRequestsOf config)
      (fun batch => batch.filter (fun line => line != []))
      (fun t batch => decryptBatch_identity sys config hD (history ++ t) batch), hflat] at h
    simpa using h
  refine ⟨hEloop, hDloop,
    recorded_calls_partition _ _ B hB U fuel hfuel _ _ hEloop,
    recorded_calls_partition _ _ B hB U fuel hfuel _ _ hDloop, ?_⟩
  intro inputPath content hcfg hread hlines
  constructor
  · intro hwrite
    simp only [EncryptFile, hread, hcfg, hlines, hEfrom, writeOutput, encryptOutputPath,
      hwrite]
    simp [hwrite]
  · intro hwrite
    simp only [DecryptFile, hread, hcfg, hlines, hDfrom, writeOutput, hwrite]
    simp [hwrite]

/-! ## The number of batch calls (C2) -/

/-- C2, counterexample: with the batch limit 1 and the two lines `a` and `b`,
Vault rejecting the batch with `a`, the loop calls `encryptBatch` once, while
`ceil(2 / 1) = 2`. -/
theorem batch_calls_stop_at_failure :
    (batchLoop (recordCalls (fun t => encryptBatch rejectingSys (configWithMaxItems 1) t))
      Error.encryptBatchRange 1 [str "a", str "b"] 3 0 [] []).map (fun run => callsIn run.1) =
      some [[str "a"]] ∧
    (batchLoop (fun t => encryptBatch rejectingSys (configWithMaxItems 1) t)
      Error.encryptBatchRange 1 [str "a", str "b"] 3 0 [] []).map (fun run => run.2) =
      some (.error (.encryptBatchRange 0 1
        (.bulkEncryptionFailed (.external (str "permission denied"))))) ∧
    ([str "a", str "b"].length + 1 - 1) / 1 = 2 := by
  decide

/-- C2, amended: for a batch limit `B ≥ 1` the loop calls the batch function
with the consecutive batches `lines[j*B : j*B + B]`, at most `ceil(n / B)` of
them, and stops at the first call that does not return results; when the loop
returns results it has made exactly `ceil(n / B)` calls: for `n = k * B` these
are `k` batches of `B` lines, for `n = k * B + r` with `0 < r < B` they are
`k + 1` batches, the first `k` of `B` lines and the last of `r` lines.  The
calls are those of the loop itself: leaving the recorded calls out of the trace
gives the run of the loop. -/
theorem batch_calls_count {ε : Type}
    (batchFn : List ε → List GoString → List ε × Outcome (List GoString))
    (wrap : Int → Int → Error → Error) (B : Nat) (hB : 1 ≤ B) (lines : List GoString)
    (fuel : Nat) (hfuel : lines.length < fuel) :
    ∃ trace outcome,
      batchLoop (recordCalls batchFn) wrap B lines fuel 0 [] [] = some (trace, outcome) ∧
      batchLoop batchFn wrap B lines fuel 0 [] [] = some (effectsIn trace, outcome) ∧
      (callsIn trace).length * B < lines.length + B ∧
      (∀ j (hj : j < (callsIn trace).length),
        (callsIn trace)[j] = (lines.drop (j * B)).take B) ∧
      (∀ results, outcome = .ok results →
        lines.length ≤ (callsIn trace).length * B ∧
        (∀ k, lines.length = k * B →
          (callsIn trace).length = k ∧ ∀ batch ∈ callsIn trace, batch.length = B) ∧
        (∀ k r, lines.length = k * B + r → 0 < r → r < B →
          (callsIn trace).length = k + 1 ∧
          (∀ j (hj : j < (callsIn trace).length), j < k → (callsIn trace)[j].length = B) ∧
          (∀ (hk : k < (callsIn trace).length), (callsIn trace)[k].length = r))) := by
  obtain ⟨trace, outcome, h1, h2, h3, h4⟩ :=
    batchLoop_recordCalls batchFn wrap B hB lines fuel hfuel
  have hceil : lines.length ≤ (batchesOf B lines).length * B ∧
      (batchesOf B lines).length * B < lines.length + B := by
    rw [batchesOf_length]
    have e1 := Nat.div_add_mod (lines.length + B - 1) B
    have e2 := Nat.mod_lt (lines.length + B - 1) (show B > 0 by omega)
    have e3 : B * ((lines.length + B - 1) / B) = (lines.length + B - 1) / B * B :=
      Nat.mul_comm _ _
    constructor <;> omega
  refine ⟨trace, outcome, h1, h2, ?_, ?_, ?_⟩
  · have hle := Nat.mul_le_mul_right B h3.length_le
    omega
  · intro j hj
    rw [h3.getElem hj]
    exact batchesOf_getElem B lines j _
  · intro results hr
    have hcalls := h4 results hr
    rw [hcalls]
    refine ⟨hceil.1, ?_, ?_⟩
    · intro k hk
      have hlen : (batchesOf B lines).length = k := by
        rw [batchesOf_length, hk]
        have : k * B + B - 1 = B - 1 + B * k := by rw [Nat.mul_comm]; omega
        rw [this, Nat.add_mul_div_left _ _ (by omega), Nat.div_eq_of_lt (by omega)]
        omega
      refine ⟨hlen, ?_⟩
      intro batch hb
      simp only [batchesOf, List.mem_map, List.mem_range] at hb
      obtain ⟨j, hj, rfl⟩ := hb
      have hj2 : j < k := by
        have := batchesOf_length B lines
        omega
      have : (j + 1) * B ≤ k * B := Nat.mul_le_mul_right B hj2
      simp only [List.length_take, List.length_drop]
      rw [Nat.add_mul] at this
      omega
    · intro k r hk hr0 hrB
      have hlen : (batchesOf B lines).length = k + 1 := by
        rw [batchesOf_length, hk]
        have : k * B + r + B - 1 = r - 1 + B * (k + 1) := by
          rw [Nat.mul_add, Nat.mul_comm]; omega
        rw [this, Nat.add_mul_div_left _ _ (by omega), Nat.div_eq_of_lt (by omega)]
        omega
      refine ⟨hlen, ?_, ?_⟩
      · intro j hj hjk
        rw [batchesOf_getElem]
        have : (j + 1) * B ≤ k * B := Nat.mul_le_mul_right B hjk
        simp only [List.length_take, List.length_drop]
        rw [Nat.add_mul] at this
        omega
      · intro hk2
        rw [batchesOf_getElem]
        simp only [List.length_take, List.length_drop]
        omega

/-! ## Responses without the result field (C3) -/

/-- C3, evaluation at the failing input: Vault answers with a `Data` map that
has no `batch_results` entry (it is empty).  `encryptBatch` and `decryptBatch`
return no results and no error, `EncryptFile` and `DecryptFile` on the file
`in.txt` with content `a\n` write an empty output file and return nil; the
single-string functions report the missing field on the same answer. -/
theorem missing_batch_results_not_detected :
    encryptBatch emptyDataSys exampleConfig [] [str "a"] =
      ([.logicalWrite (str "transit/encrypt/k") (.encryptBatchInput [⟨str "YQ=="⟩])],
        .ok []) ∧
    decryptBatch emptyDataSys exampleConfig [] [str "a"] =
      ([.logicalWrite (str "transit/decrypt/k") (.decryptBatchInput [⟨str "a"⟩])], .ok []) ∧
    EncryptFile emptyDataSys exampleConfig [] (str "in.txt") [] false 2 =
      some ([.readFile (str "in.txt"),
        .logicalWrite (str "transit/encrypt/k") (.encryptBatchInput [⟨str "YQ=="⟩]),
        .writeFile (str "in.txt.encrypted") [],
        .printf (str "File encrypted successfully: in.txt.encrypted\n")], .ok ()) ∧
    DecryptFile emptyDataSys exampleConfig [] (str "in.txt") [] false 2 =
      some ([.readFile (str "in.txt"),
        .logicalWrite (str "transit/decrypt/k") (.decryptBatchInput [⟨str "a"⟩]),
        .writeFile (str "in.txt.decrypted") [],
        .printf (str "File decrypted successfully: in.txt.decrypted\n")], .ok ()) ∧
    (EncryptString emptyDataSys exampleConfig [] (str "a")).2 = .error .ciphertextNotFound ∧
    (DecryptString emptyDataSys exampleConfig [] (str "a")).2 = .error .plaintextNotFound := by
  decide

/-! ## Round trip through the service (C4) -/

theorem transitPlain_transitCipher (plaintext : GoString) :
    transitPlain (transitCipher plaintext) = plaintext := by
  simp [transitPlain, transitCipher, str]

/-- C4, evaluation at the failing input: the example transit service returns
for the line `a` the ciphertext `vault:v1:YQ==` and for that ciphertext the
base64 plaintext `YQ==` again, and the single-string functions print them; but
`encryptBatch` finds no result, so that the round trip of the line gives the
empty list, and `EncryptFile` writes an empty file for `a\n`. -/
theorem batch_round_trip_lost :
    encryptBatch transitSys exampleConfig [] [str "a"] =
      ([.logicalWrite (str "transit/encrypt/k") (.encryptBatchInput [⟨str "YQ=="⟩])],
        .ok []) ∧
    decryptBatch transitSys exampleConfig [] [] = ([], .ok []) ∧
    decryptBatch transitSys exampleConfig [] [str "vault:v1:YQ=="] =
      ([.logicalWrite (str "transit/decrypt/k") (.decryptBatchInput [⟨str "vault:v1:YQ=="⟩])],
        .ok []) ∧
    EncryptString transitSys exampleConfig [] (str "a") =
      ([.logicalWrite (str "transit/encrypt/k") (.plaintext (str "YQ==")),
        .printf (str "Encrypted text: vault:v1:YQ==\n")], .ok ()) ∧
    DecryptString transitSys exampleConfig [] (str "vault:v1:YQ==") =
      ([.logicalWrite (str "transit/decrypt/k") (.ciphertext (str "vault:v1:YQ==")),
        .printf (str "Decrypted text: a\n")], .ok ()) ∧
    EncryptFile transitSys exampleConfig [] (str "in.txt") [] false 2 =
      some ([.readFile (str "in.txt"),
        .logicalWrite (str "transit/encrypt/k") (.encryptBatchInput [⟨str "YQ=="⟩]),
        .writeFile (str "in.txt.encrypted") [],
        .printf (str "File encrypted successfully: in.txt.encrypted\n")], .ok ()) := by
  decide

/-! ## The model of `encoding/json` on well-formed responses -/

theorem decodeItems_objects (key : GoString) (values : List GoString) :
    decodeItems key [] (values.map (fun value => .object [(key, .string value)])) =
      (values, false) := by
  induction values with
  | nil => rfl
  | cons v rest ih =>
    simp only [List.map_cons, decodeItems, List.tail_nil, ih, decodeItem, decodeMembers,
      if_true, decodeString, List.headD_nil, Bool.or_false]

theorem unmarshalResponse_nested (key : GoString) (values : List GoString) :
    unmarshalResponse key (nestedResults key values) = .ok values := by
  simp [unmarshalResponse, nestedResults, decodeMembers, decodeData, decodeBatchResults,
    decodeItems_objects]

/-- Keys are matched without regard to case: a `Data` map with the key `Data`
and the inner key `Batch_Results` is read like one with `data` and
`batch_results`, and a value of the wrong kind under `DATA` is an error. -/
theorem unmarshal_matches_keys_ignoring_case :
    unmarshalBulkEncryptResponse [(str "Data", .object [(str "Batch_Results",
      .array [.object [(str "CipherText", .string (str "X"))]])])] = .ok ⟨⟨[⟨str "X"⟩]⟩⟩ ∧
    unmarshalBulkEncryptResponse [(str "DATA", .string (str "oops"))] =
      .unmarshalError (str "json: cannot unmarshal") ∧
    unmarshalBulkEncryptResponse [(str "batch_results",
      .array [.object [(str "ciphertext", .string (str "X"))]])] = .ok ⟨⟨[]⟩⟩ := by
  decide

/-- With the result fields one level down, under the key `data`, the round trip
of a non-empty line through `encryptBatch` and `decryptBatch` gives the line
back, provided the ciphertext is not the empty string. -/
theorem batch_round_trip_of_nested_response (sys : Sys) (config : VaultConfig)
    (historyE historyD : List Effect) (line cipher : GoString) (hline : line ≠ [])
    (hcipher : cipher ≠ [])
    (hdecodeE : sys.decodeEncryptResponse = unmarshalBulkEncryptResponse)
    (hdecodeD : sys.decodeDecryptResponse = unmarshalBulkDecryptResponse)
    (henc : sys.logicalWrite historyE (encryptPath config)
        (.encryptBatchInput [⟨EncodeToString line⟩]) =
      .ok (some (nestedResults (str "ciphertext") [cipher])))
    (hdec : sys.logicalWrite historyD (decryptPath config) (.decryptBatchInput [⟨cipher⟩]) =
      .ok (some (nestedResults (str "plaintext") [EncodeToString line]))) :
    (encryptBatch sys config historyE [line]).2 = .ok [cipher] ∧
    (decryptBatch sys config historyD [cipher]).2 = .ok [line] := by
  constructor
  · simp [encryptBatch, encryptBatchRequests, hline, henc, hdecodeE,
      unmarshalBulkEncryptResponse, unmarshalResponse_nested]
  · simp [decryptBatch, decryptBatchRequests, hcipher, hdec, hdecodeD,
      unmarshalBulkDecryptResponse, unmarshalResponse_nested, decodePlaintexts,
      decodeString_encodeToString]

theorem batch_round_trip_nested_service (line : GoString) (hline : line ≠ []) :
    (encryptBatch nestedTransitSys exampleConfig [] [line]).2 =
      .ok [transitCipher (EncodeToString line)] ∧
    (decryptBatch nestedTransitSys exampleConfig []
      [transitCipher (EncodeToString line)]).2 = .ok [line] :=
  batch_round_trip_of_nested_response nestedTransitSys exampleConfig [] [] line
    (transitCipher (EncodeToString line)) hline (by simp [transitCipher, str]) rfl rfl
    (by simp [nestedTransitSys, transitData, nestedResults])
    (by simp [nestedTransitSys, transitData, nestedResults, transitPlain_transitCipher])

/-! ## Instances -/

theorem identitySys_encrypt (h : List Effect) (ls : List GoString) :
    ∃ data,
      identitySys.logicalWrite h (encryptPath exampleConfig)
        (.encryptBatchInput (ls.map (fun l => ⟨EncodeToString l⟩))) = .ok (some data) ∧
      identitySys.decodeEncryptResponse data = .ok ⟨⟨ls.map (fun l => ⟨l⟩)⟩⟩ := by
  refine ⟨nestedResults (str "ciphertext") ls, ?_, ?_⟩
  · simp [identitySys, List.map_map, Function.comp_def, decodeString_encodeToString]
  · show unmarshalBulkEncryptResponse _ = _
    simp [unmarshalBulkEncryptResponse, unmarshalResponse_nested]

theorem identitySys_decrypt (h : List Effect) (ls : List GoString) :
    ∃ data,
      identitySys.logicalWrite h (decryptPath exampleConfig)
        (.decryptBatchInput (ls.map (fun l => ⟨l⟩))) = .ok (some data) ∧
      identitySys.decodeDecryptResponse data =
        .ok ⟨⟨ls.map (fun l => ⟨EncodeToString l⟩)⟩⟩ := by
  refine ⟨nestedResults (str "plaintext") (ls.map EncodeToString), ?_, ?_⟩
  · simp [identitySys, List.map_map, Function.comp_def]
  · show unmarshalBulkDecryptResponse _ = _
    simp [unmarshalBulkDecryptResponse, unmarshalResponse_nested, List.map_map,
      Function.comp_def]

theorem identity_transform_keeps_order_witness :
    batchLoop (fun t => encryptBatch identitySys exampleConfig ([] ++ t))
      Error.encryptBatchRange ((2 : Nat) : Int) [str "a", [], str "b"] 4 0 [] [] =
      some ([.logicalWrite (str "transit/encrypt/k") (.encryptBatchInput [⟨str "YQ=="⟩]),
        .logicalWrite (str "transit/encrypt/k") (.encryptBatchInput [⟨str "Yg=="⟩])],
        .ok [str "a", str "b"]) ∧
    EncryptFile identitySys (configWithMaxItems 2) [] (str "mixed.txt") [] false 4 =
      some ([.readFile (str "mixed.txt"),
        .logicalWrite (str "transit/encrypt/k") (.encryptBatchInput [⟨str "YQ=="⟩]),
        .logicalWrite (str "transit/encrypt/k") (.encryptBatchInput [⟨str "Yg=="⟩]),
        .writeFile (str "mixed.txt.encrypted") (str "a\nb"),
        .printf (str "File encrypted successfully: mixed.txt.encrypted\n")], .ok ()) :=
  ⟨(identity_transform_keeps_order identitySys exampleConfig [] 2 (by decide)
      [str "a", [], str "b"] 4 (by decide)
      (fun h ls _ _ => identitySys_encrypt h ls)
      (fun h ls _ _ => identitySys_decrypt h ls)).1,
    ((identity_transform_keeps_order identitySys (configWithMaxItems 2) [] 2 (by decide)
      [str "a", [], str "b"] 4 (by decide)
      (fun h ls _ _ => identitySys_encrypt h ls)
      (fun h ls _ _ => identitySys_decrypt h ls)).2.2.2.2 (str "mixed.txt") (str "a\n\nb\n")
      rfl rfl (by decide)).1 rfl⟩

theorem batch_calls_count_witness :
    ∃ trace results,
      batchLoop (recordCalls (fun t => encryptBatch nestedTransitSys exampleConfig t))
        Error.encryptBatchRange ((2 : Nat) : Int) [str "a", [], str "b"] 4 0 [] [] =
        some (trace, .ok results) ∧
      (callsIn trace).length = 2 := by
  obtain ⟨trace, outcome, h1, h2, _, _, h5⟩ :=
    batch_calls_count (fun t => encryptBatch nestedTransitSys exampleConfig t)
      Error.encryptBatchRange 2 (by decide) [str "a", [], str "b"] 4 (by decide)
  have hrun : batchLoop (fun t => encryptBatch nestedTransitSys exampleConfig t)
      Error.encryptBatchRange ((2 : Nat) : Int) [str "a", [], str "b"] 4 0 [] [] =
      some ([.logicalWrite (str "transit/encrypt/k") (.encryptBatchInput [⟨str "YQ=="⟩]),
        .logicalWrite (str "transit/encrypt/k") (.encryptBatchInput [⟨str "Yg=="⟩])],
        .ok [str "vault:v1:YQ==", str "vault:v1:Yg=="]) := by decide
  rw [hrun] at h2
  have hout : outcome = .ok [str "vault:v1:YQ==", str "vault:v1:Yg=="] := by
    have := Option.some.inj h2
    simp only [Prod.mk.injEq] at this
    exact this.2.symm
  subst hout
  exact ⟨trace, _, h1, ((h5 _ rfl).2.2 1 1 (by decide) (by decide) (by decide)).1⟩

theorem batch_failure_aborts_witness :
    EncryptFile flakySys (configWithMaxItems 1) [] (str "same.txt") [] false 3 =
      some ([.readFile (str "same.txt"),
        .logicalWrite (str "transit/encrypt/k") (.encryptBatchInput [⟨str "YQ=="⟩]),
        .logicalWrite (str "transit/encrypt/k") (.encryptBatchInput [⟨str "YQ=="⟩])],
        .error (.encryptBatchRange 1 2 (.bulkEncryptionFailed (.external (str "timeout"))))) :=
  ((batch_failure_aborts flakySys (configWithMaxItems 1) [] (str "same.txt") [] false
    (str "a\na\n") 1 (by decide) rfl rfl 1 (by decide) 2 (by decide)
    [.readFile (str "same.txt"),
      .logicalWrite (str "transit/encrypt/k") (.encryptBatchInput [⟨str "YQ=="⟩])]
    [str "vault:v1:YQ=="] (.bulkEncryptionFailed (.external (str "timeout"))) 3
    (by decide)).1 (by decide) (by decide)).1

theorem output_path_resolution_witness :
    decryptOutputPath emptyDataSys (str "notes.txt.encrypted") [] false = str "notes.txt" ∧
    decryptOutputPath emptyDataSys (str "notes.txt") [] false = str "notes.txt.decrypted" :=
  ⟨(output_path_resolution emptyDataSys (str "notes.txt.encrypted")).2.1 (str "notes.txt")
      (by decide),
    (output_path_resolution emptyDataSys (str "notes.txt")).2.2.1
      (by rw [← hasSuffix_iff]; decide)⟩

theorem validateInputs_first_witness :
    runEncrypt transitSys noInputFlags 1 = some (noInputFlags, [], .error .neitherFileNorText) ∧
    runDecrypt transitSys noInputFlags 1 = some (noInputFlags, [], .error .neitherFileNorText) :=
  (validateInputs_first transitSys noInputFlags 1).2 .neitherFileNorText (by decide)

theorem batch_loop_termination_witness :
    (∀ fuel,
      runEncrypt transitSys zeroMaxItemsFlags fuel = none ∧
      runDecrypt transitSys zeroMaxItemsFlags fuel = none) ∧
    (∀ fuel,
      EncryptFile transitSys (configWithMaxItems 0) [] (str "in.txt") [] false fuel = none ∧
      DecryptFile transitSys (configWithMaxItems 0) [] (str "in.txt") [] false fuel = none) ∧
    (∃ bound resultE resultD, ∀ fuel, bound < fuel →
      EncryptFile transitSys exampleConfig [] (str "in.txt") [] false fuel = some resultE ∧
      DecryptFile transitSys exampleConfig [] (str "in.txt") [] false fuel = some resultD) :=
  ⟨(batch_loop_termination transitSys exampleConfig [] (str "in.txt") [] false).2.2.2.2.2.2.2
      zeroMaxItemsFlags (str "a\n") rfl (by decide) (by decide) rfl (by decide) rfl rfl
      (by decide),
    (batch_loop_termination transitSys (configWithMaxItems 0) [] (str "in.txt") []
      false).2.2.2.1 (by decide) (str "a\n") rfl (by decide),
    (batch_loop_termination transitSys exampleConfig [] (str "in.txt") [] false).2.1
      (by decide)⟩

end VaultCli
